import Mathlib

/-!
# SIGNIA core: shallow embedding and verification

A shallow embedding of the deterministic compile/verify engine of the SIGNIA
repository (crates `signia-core` and `signia-plugins`), together with proofs
about the claims of its specification.

Conventions of the embedding:

* Rust `String` is modelled as Lean `String`.  Rust's `String::cmp` is
  byte-lexicographic over UTF-8; Lean's `String` order is lexicographic over
  code points, and UTF-8 byte order coincides with code-point order, so the
  two orders agree.
* Byte buffers (`Vec<u8>`, `&[u8]`) are modelled as `List Nat` with each
  element a byte value.
* Fallible Rust functions returning `SigniaResult<T>` / `anyhow::Result<T>`
  are modelled as `Except SigniaError T` / `Except String T` (anyhow errors
  are observed through their message only).
* `BTreeMap`-shaped collections are modelled as association lists with
  explicit lookup/insert helpers.
* SHA-256 (the `sha2` crate) is implemented in full, over `List Nat`, so that
  every hash in the development is executable.
* Parts of the repository that are referenced by the code under `src/` but
  whose own sources are not available (`errors.rs`, `model/ir.rs`,
  `model/v1.rs`, the `merkle` and `canonical_json` modules) are modelled from
  the specification; each such definition is marked `Modelled from the spec`.
-/

namespace Signia

/-! ## Bytes, hex, UTF-8 -/

/-- Lowercase hex digit for a nibble. -/
def nibbleChar (n : Nat) : Char :=
  if n = 0 then '0' else if n = 1 then '1' else if n = 2 then '2'
  else if n = 3 then '3' else if n = 4 then '4' else if n = 5 then '5'
  else if n = 6 then '6' else if n = 7 then '7' else if n = 8 then '8'
  else if n = 9 then '9' else if n = 10 then 'a' else if n = 11 then 'b'
  else if n = 12 then 'c' else if n = 13 then 'd' else if n = 14 then 'e'
  else 'f'

/-- Lowercase hex encoding of a byte list (`hex::encode`). -/
def hexEncode (bs : List Nat) : String :=
  ⟨bs.foldr (fun b acc => nibbleChar (b / 16 % 16) :: nibbleChar (b % 16) :: acc) []⟩

/-- Value of one hex digit; accepts both cases (`hex::decode` accepts both). -/
def hexDigitVal (c : Char) : Option Nat :=
  if c = '0' then some 0 else if c = '1' then some 1 else if c = '2' then some 2
  else if c = '3' then some 3 else if c = '4' then some 4 else if c = '5' then some 5
  else if c = '6' then some 6 else if c = '7' then some 7 else if c = '8' then some 8
  else if c = '9' then some 9
  else if c = 'a' ∨ c = 'A' then some 10 else if c = 'b' ∨ c = 'B' then some 11
  else if c = 'c' ∨ c = 'C' then some 12 else if c = 'd' ∨ c = 'D' then some 13
  else if c = 'e' ∨ c = 'E' then some 14 else if c = 'f' ∨ c = 'F' then some 15
  else none

/-- Hex decoding of a string into raw bytes (`hex::decode`): requires an even
number of characters, all hex digits. -/
def hexDecodeChars : List Char → Option (List Nat)
  | [] => some []
  | [_] => none
  | c1 :: c2 :: rest => do
    let h ← hexDigitVal c1
    let l ← hexDigitVal c2
    let tl ← hexDecodeChars rest
    pure ((h * 16 + l) :: tl)

def hexDecode (s : String) : Option (List Nat) :=
  hexDecodeChars s.data

/-- UTF-8 encoding of one character. -/
def charUtf8 (c : Char) : List Nat :=
  let n := c.toNat
  if n < 128 then [n]
  else if n < 2048 then [192 + n / 64, 128 + n % 64]
  else if n < 65536 then [224 + n / 4096, 128 + n / 64 % 64, 128 + n % 64]
  else [240 + n / 262144, 128 + n / 4096 % 64, 128 + n / 64 % 64, 128 + n % 64]

/-- UTF-8 bytes of a string (Rust `str::as_bytes`). -/
def utf8 (s : String) : List Nat :=
  s.data.foldr (fun c acc => charUtf8 c ++ acc) []

/-- Models Rust `s.trim().is_empty()`: true iff every character is whitespace. -/
def isBlank (s : String) : Bool :=
  s.data.all Char.isWhitespace

/-- Lexicographic strict comparison of character lists.  Rust's `String::cmp`
is byte-lexicographic over UTF-8, which coincides with code-point
lexicographic order; this executable comparison stands in for it (the
built-in `String` order is defined by well-founded recursion and does not
evaluate inside the kernel). -/
def ltCharsB : List Char → List Char → Bool
  | [], [] => false
  | [], _ :: _ => true
  | _ :: _, [] => false
  | a :: as_, b :: bs =>
    if a < b then true else if b < a then false else ltCharsB as_ bs

/-- `a < b` on Rust strings (byte-lexicographic). -/
def strLtB (a b : String) : Bool := ltCharsB a.data b.data

/-- Agreement with the lexicographic order on `List Char`. -/
theorem ltCharsB_eq_true_iff : ∀ x y : List Char, ltCharsB x y = true ↔ x < y := by
  intro x
  induction x with
  | nil =>
    intro y
    cases y with
    | nil => exact ⟨fun h => by simp [ltCharsB] at h, fun h => nomatch h⟩
    | cons b bs => exact ⟨fun _ => List.Lex.nil, fun _ => rfl⟩
  | cons a as_ ih =>
    intro y
    cases y with
    | nil => exact ⟨fun h => by simp [ltCharsB] at h, fun h => nomatch h⟩
    | cons b bs =>
      by_cases hab : a < b
      · exact iff_of_true (by simp [ltCharsB, hab]) (List.Lex.rel hab)
      · by_cases hba : b < a
        · refine iff_of_false (by simp [ltCharsB, hab, hba]) fun h => ?_
          cases h with
          | rel h' => exact hab h'
          | cons h' => exact lt_irrefl a hba
        · have heq : a = b := le_antisymm (not_lt.mp hba) (not_lt.mp hab)
          subst heq
          simp only [ltCharsB, if_neg hab, if_neg hba]
          constructor
          · intro h; exact List.Lex.cons ((ih bs).mp h)
          · intro h
            cases h with
            | rel h' => exact absurd h' hab
            | cons h' => exact (ih bs).mpr h'

/-- `strLtB` is `<` of the lexicographic list order on the characters. -/
theorem strLtB_eq_true_iff (a b : String) :
    strLtB a b = true ↔ a.data < b.data :=
  ltCharsB_eq_true_iff a.data b.data

/-- `strLtB ... = false` is `≤` of the lexicographic list order. -/
theorem strLtB_eq_false_iff (a b : String) :
    strLtB b a = false ↔ a.data ≤ b.data := by
  rw [← Bool.not_eq_true, strLtB_eq_true_iff]
  exact not_lt

/-! ## SHA-256 (the `sha2` crate), executable over byte lists -/

/-- Truncation to a 32-bit word. -/
def w32 (n : Nat) : Nat := n % 4294967296

/-- 32-bit right rotation. -/
def rotr (k x : Nat) : Nat := w32 ((x >>> k) ||| (x <<< (32 - k)))

def bsig0 (x : Nat) : Nat := (rotr 2 x) ^^^ (rotr 13 x) ^^^ (rotr 22 x)
def bsig1 (x : Nat) : Nat := (rotr 6 x) ^^^ (rotr 11 x) ^^^ (rotr 25 x)
def ssig0 (x : Nat) : Nat := (rotr 7 x) ^^^ (rotr 18 x) ^^^ (x >>> 3)
def ssig1 (x : Nat) : Nat := (rotr 17 x) ^^^ (rotr 19 x) ^^^ (x >>> 10)

/-- SHA-256 round constants (FIPS 180-4 section 4.2.2, in decimal). -/
def shaK : List Nat :=
  [1116352408, 1899447441, 3049323471, 3921009573, 961987163, 1508970993,
   2453635748, 2870763221, 3624381080, 310598401, 607225278, 1426881987,
   1925078388, 2162078206, 2614888103, 3248222580, 3835390401, 4022224774,
   264347078, 604807628, 770255983, 1249150122, 1555081692, 1996064986,
   2554220882, 2821834349, 2952996808, 3210313671, 3336571891, 3584528711,
   113926993, 338241895, 666307205, 773529912, 1294757372, 1396182291,
   1695183700, 1986661051, 2177026350, 2456956037, 2730485921, 2820302411,
   3259730800, 3345764771, 3516065817, 3600352804, 4094571909, 275423344,
   430227734, 506948616, 659060556, 883997877, 958139571, 1322822218,
   1537002063, 1747873779, 1955562222, 2024104815, 2227730452, 2361852424,
   2428436474, 2756734187, 3204031479, 3329325298]

/-- SHA-256 initial state (FIPS 180-4 section 5.3.3, in decimal). -/
def shaH0 : List Nat :=
  [1779033703, 3144134277, 1013904242, 2773480762,
   1359893119, 2600822924, 528734635, 1541459225]

/-- Big-endian 32-bit words from bytes (length a multiple of 4). -/
def bytesToWords : List Nat → List Nat
  | a :: b :: c :: d :: rest =>
      (a * 16777216 + b * 65536 + c * 256 + d) :: bytesToWords rest
  | _ => []

/-- Big-endian bytes of one 32-bit word. -/
def wordBytes (w : Nat) : List Nat :=
  [w / 16777216 % 256, w / 65536 % 256, w / 256 % 256, w % 256]

/-- Big-endian 64-bit length field. -/
def lenBytes64 (n : Nat) : List Nat :=
  [n / 72057594037927936 % 256, n / 281474976710656 % 256,
   n / 1099511627776 % 256, n / 4294967296 % 256,
   n / 16777216 % 256, n / 65536 % 256, n / 256 % 256, n % 256]

/-- SHA-256 message padding. -/
def shaPad (msg : List Nat) : List Nat :=
  let l := msg.length
  let zeros := (119 - l % 64) % 64
  msg ++ [128] ++ List.replicate zeros 0 ++ lenBytes64 (l * 8)

/-- Message-schedule extension: `acc` holds the words produced so far in
reverse order; performs `k` extension steps. -/
def schedExt : Nat → List Nat → List Nat
  | 0, acc => acc
  | k + 1, acc =>
    let nw := w32 (ssig1 (acc.getD 1 0) + acc.getD 6 0 + ssig0 (acc.getD 14 0) + acc.getD 15 0)
    schedExt k (nw :: acc)

/-- The 64-entry message schedule of one block (given as 16 words). -/
def schedule (ws : List Nat) : List Nat :=
  (schedExt 48 ws.reverse).reverse

/-- One round of the SHA-256 compression function. -/
def compressStep (st : List Nat) (kw : Nat × Nat) : List Nat :=
  match st with
  | [a, b, c, d, e, f, g, h] =>
    let t1 := w32 (h + bsig1 e + ((e &&& f) ^^^ ((4294967295 - e) &&& g)) + kw.1 + kw.2)
    let t2 := w32 (bsig0 a + ((a &&& b) ^^^ (a &&& c) ^^^ (b &&& c)))
    [w32 (t1 + t2), a, b, c, w32 (d + t1), e, f, g]
  | other => other

/-- Compress one 64-byte block into the running state. -/
def shaCompress (st : List Nat) (block : List Nat) : List Nat :=
  let ws := schedule (bytesToWords block)
  let fin := (shaK.zip ws).foldl compressStep st
  (st.zip fin).map fun p => w32 (p.1 + p.2)

/-- Split into 64-byte blocks (fuelled by the list length). -/
def chunks64Aux : Nat → List Nat → List (List Nat)
  | 0, _ => []
  | _ + 1, [] => []
  | f + 1, xs => xs.take 64 :: chunks64Aux f (xs.drop 64)

def chunks64 (xs : List Nat) : List (List Nat) :=
  chunks64Aux xs.length xs

/-- SHA-256 digest (32 bytes) of a byte list. -/
def sha256 (msg : List Nat) : List Nat :=
  let st := (chunks64 (shaPad msg)).foldl shaCompress shaH0
  st.foldr (fun w acc => wordBytes w ++ acc) []

/-! ## Errors (`signia-core/src/errors.rs` is not under `src/`)

Modelled from the spec: §7 lists the error kinds exposed by the core and §9
fixes the result shape `Ok | Err{kind,code,message}`; the code under `src/`
only ever constructs errors through the kind-named constructors
(`SigniaError::invalid_argument(msg)` etc.), so an error is modelled as a
kind together with its message. -/

inductive ErrorKind where
  | invalidArgument
  | invariantKind
  | serializationKind
  | resourceLimit
  | notFound
  | cryptographic
deriving DecidableEq, Repr

structure SigniaError where
  kind : ErrorKind
  message : String
deriving DecidableEq, Repr

def SigniaError.invalid_argument (m : String) : SigniaError := ⟨.invalidArgument, m⟩

def SigniaError.invariant (m : String) : SigniaError := ⟨.invariantKind, m⟩

def SigniaError.serialization (m : String) : SigniaError := ⟨.serializationKind, m⟩

abbrev SigniaResult (α : Type) := Except SigniaError α

instance {ε α : Type} [DecidableEq ε] [DecidableEq α] : DecidableEq (Except ε α) := fun a b =>
  match a, b with
  | .error e1, .error e2 =>
    if h : e1 = e2 then isTrue (by rw [h]) else isFalse fun hc => h (Except.error.inj hc)
  | .ok v1, .ok v2 =>
    if h : v1 = v2 then isTrue (by rw [h]) else isFalse fun hc => h (Except.ok.inj hc)
  | .error _, .ok _ => isFalse fun hc => Except.noConfusion hc
  | .ok _, .error _ => isFalse fun hc => Except.noConfusion hc

/-! ## Domain separation labels (`signia-core/src/lib.rs`) -/

def domainMERKLE_LEAF : String := "signia.v1.merkle.leaf"

def domainMERKLE_NODE : String := "signia.v1.merkle.node"

/-! ## JSON values and canonical encoding

`serde_json::Value` is modelled as `Json` (numbers restricted to integers:
the canonical encoder of §4.A rejects non-integer floats, and no value in
this development carries one).  `serde_json::Map` is a `BTreeMap`, modelled
as an association list; lookups compare keys only. -/

inductive Json where
  | null
  | bool (b : Bool)
  | num (n : Int)
  | str (s : String)
  | arr (xs : List Json)
  | obj (kvs : List (String × Json))

/-- `Value::as_str`. -/
def Json.asStr : Json → Option String
  | .str s => some s
  | _ => none

/-- `Value::as_array`. -/
def Json.asArr : Json → Option (List Json)
  | .arr xs => some xs
  | _ => none

/-- `Value::as_object` (exposing the entry list). -/
def Json.asObj : Json → Option (List (String × Json))
  | .obj kvs => some kvs
  | _ => none

def Json.isObject : Json → Bool
  | .obj _ => true
  | _ => false

/-- First entry with the given key in an association list. -/
def lookupEntry {α : Type} : List (String × α) → String → Option α
  | [], _ => none
  | (k', v) :: rest, k => if k' = k then some v else lookupEntry rest k

/-- `Value::get(key)` on objects (first matching entry; entries are unique in
every value this development builds). -/
def Json.get : Json → String → Option Json
  | .obj kvs, k => lookupEntry kvs k
  | _, _ => none

/-- `map.contains_key(k)`. -/
def Json.hasKey (j : Json) (k : String) : Bool :=
  (j.get k).isSome

/-- Canonical JSON string escaping (§4.A escape table). -/
def escapeChar (c : Char) : List Nat :=
  if c = '"' then utf8 "\\\""
  else if c = '\\' then utf8 "\\\\"
  else if c.toNat = 8 then utf8 "\\b"
  else if c.toNat = 12 then utf8 "\\f"
  else if c = '\n' then utf8 "\\n"
  else if c = '\r' then utf8 "\\r"
  else if c = '\t' then utf8 "\\t"
  else if c.toNat < 32 then
    utf8 "\\u00" ++ [ (nibbleChar (c.toNat / 16)).toNat, (nibbleChar (c.toNat % 16)).toNat ]
  else charUtf8 c

/-- Canonical encoding of a JSON string literal. -/
def canonString (s : String) : List Nat :=
  34 :: s.data.foldr (fun c acc => escapeChar c ++ acc) [34]

/-- Canonical encoding of an integer (no leading zeros, no `+`). -/
def canonInt (n : Int) : List Nat :=
  utf8 (if n < 0 then "-" ++ Nat.repr n.natAbs else Nat.repr n.natAbs)

/-- Sort object entries ascending by key (byte-lexicographic). -/
def sortEntries (kvs : List (String × Json)) : List (String × Json) :=
  kvs.insertionSort fun a b => strLtB b.1 a.1 = false

/-- Does the (sorted) entry list contain two adjacent equal keys? -/
def hasDupKey : List (String × Json) → Bool
  | (k1, _) :: (k2, v2) :: rest => k1 = k2 || hasDupKey ((k2, v2) :: rest)
  | _ => false

/-- Traversal argument of the canonical encoder: a value, an array tail, or
a sorted object-entry tail. -/
inductive CanonArg where
  | val (j : Json)
  | arrTail (xs : List Json)
  | objTail (kvs : List (String × Json))

/-- Modelled from the spec: the canonical JSON encoder of §4.A
(`determinism/canonical_json.rs` is not under `src/`).  Objects are encoded
with keys sorted ascending byte-lexicographically, duplicates are an error
(`UnsortableKey`), arrays keep source order, no whitespace is emitted, and a
recursion limit bounds the traversal (`RecursionLimit`); the fuel below
decreases on every step, which over-approximates depth and is irrelevant for
the terminating inputs of this development. -/
def canonAux : Nat → CanonArg → SigniaResult (List Nat)
  | 0, _ => .error (.serialization "canonical JSON recursion limit exceeded")
  | _ + 1, .val .null => .ok (utf8 "null")
  | _ + 1, .val (.bool b) => .ok (utf8 (if b then "true" else "false"))
  | _ + 1, .val (.num n) => .ok (canonInt n)
  | _ + 1, .val (.str s) => .ok (canonString s)
  | f + 1, .val (.arr xs) => do
    let inner ← canonAux f (.arrTail xs)
    .ok (91 :: inner ++ [93])
  | f + 1, .val (.obj kvs) =>
    let sorted := sortEntries kvs
    if hasDupKey sorted then
      .error (.serialization "duplicate object key")
    else do
      let inner ← canonAux f (.objTail sorted)
      .ok (123 :: inner ++ [125])
  | _ + 1, .arrTail [] => .ok []
  | f + 1, .arrTail [x] => canonAux f (.val x)
  | f + 1, .arrTail (x :: y :: rest) => do
    let hd ← canonAux f (.val x)
    let tl ← canonAux f (.arrTail (y :: rest))
    .ok (hd ++ [44] ++ tl)
  | _ + 1, .objTail [] => .ok []
  | f + 1, .objTail [(k, v)] => do
    let ve ← canonAux f (.val v)
    .ok (canonString k ++ [58] ++ ve)
  | f + 1, .objTail ((k, v) :: e2 :: rest) => do
    let ve ← canonAux f (.val v)
    let tl ← canonAux f (.objTail (e2 :: rest))
    .ok (canonString k ++ [58] ++ ve ++ [44] ++ tl)

/-- Fuel for the canonical encoder; every value built in this development is
far smaller. -/
def canonFuel : Nat := 4096

/-- `canonical_json::to_canonical_bytes`. -/
def to_canonical_bytes (j : Json) : SigniaResult (List Nat) :=
  canonAux canonFuel (.val j)

/-! ## Hashing utilities (`signia-core/src/determinism/hashing.rs`) -/

inductive HashAlg where
  | sha256Alg
deriving DecidableEq, Repr

/-- `HashAlg::from_str`. -/
def HashAlg.from_str (s : String) : SigniaResult HashAlg :=
  if s = "sha256" then .ok .sha256Alg
  else .error (.invalid_argument ("unsupported hash algorithm: " ++ s))

/-- `hash_bytes`. -/
def hash_bytes : HashAlg → List Nat → List Nat
  | .sha256Alg, bs => sha256 bs

/-- `hash_bytes_hex` (always `Ok` in the source; modelled as pure). -/
def hash_bytes_hex (bs : List Nat) : String :=
  hexEncode (hash_bytes .sha256Alg bs)

/-- `hash_merkle_leaf_hex`: domain-separated Merkle leaf hash. -/
def hash_merkle_leaf_hex (alg : String) (payload : List Nat) : SigniaResult String := do
  let a ← HashAlg.from_str alg
  .ok (hexEncode (hash_bytes a (utf8 domainMERKLE_LEAF ++ payload)))

/-- `hash_merkle_node_hex`: domain-separated Merkle internal node hash. -/
def hash_merkle_node_hex (alg : String) (leftHex rightHex : String) : SigniaResult String := do
  let a ← HashAlg.from_str alg
  let l ← match hexDecode leftHex with
    | some v => .ok v
    | none => .error (.invalid_argument "invalid left hex")
  let r ← match hexDecode rightHex with
    | some v => .ok v
    | none => .error (.invalid_argument "invalid right hex")
  .ok (hexEncode (hash_bytes a (utf8 domainMERKLE_NODE ++ l ++ r)))

/-- `hash_canonical_json_hex`. -/
def hash_canonical_json_hex (j : Json) : SigniaResult String := do
  let bs ← to_canonical_bytes j
  .ok (hexEncode (hash_bytes .sha256Alg bs))

/-! ## Merkle tree (`signia-core`'s `merkle` module is not under `src/`)

Modelled from the spec: §4.C fixes leaf/node hashing (domain-separated),
bottom-up pairwise reduction duplicating the last element of an odd level,
and the empty-tree root `H_leaf` of the empty payload; leaves are consumed
in the given order without re-sorting. -/

structure MerkleTreeOptions where
  hash_alg : String
  domain_leaf : String
  domain_node : String

structure MerkleTree where
  opts : MerkleTreeOptions
  leafHashes : List String

def MerkleTree.new (opts : MerkleTreeOptions) : MerkleTree :=
  ⟨opts, []⟩

/-- `MerkleTree::push_leaf`: hash the payload with the leaf domain and append. -/
def MerkleTree.push_leaf (t : MerkleTree) (payload : List Nat) : SigniaResult MerkleTree := do
  let h ← hash_merkle_leaf_hex t.opts.hash_alg payload
  .ok ⟨t.opts, t.leafHashes ++ [h]⟩

/-- Combine one level: pairwise node hashes, the last element of an odd level
paired with itself. -/
def merkleLevelUp (alg : String) : List String → SigniaResult (List String)
  | [] => .ok []
  | [h] => do
    let n ← hash_merkle_node_hex alg h h
    .ok [n]
  | h1 :: h2 :: rest => do
    let n ← hash_merkle_node_hex alg h1 h2
    let tl ← merkleLevelUp alg rest
    .ok (n :: tl)

/-- Bottom-up reduction (fuelled by the level count; each level at least
halves the list). -/
def merkleReduce (alg : String) : Nat → List String → SigniaResult String
  | _, [h] => .ok h
  | 0, _ => .error (.invariant "merkle reduction did not converge")
  | f + 1, hs => do
    let up ← merkleLevelUp alg hs
    merkleReduce alg f up

/-- `MerkleTree::root_hex`. -/
def MerkleTree.root_hex (t : MerkleTree) : SigniaResult String :=
  match t.leafHashes with
  | [] => hash_merkle_leaf_hex t.opts.hash_alg []
  | hs => merkleReduce t.opts.hash_alg hs.length hs

/-! ## Versioned models (`signia-core/src/model/v1.rs` is not under `src/`)

Modelled from the spec: §3 fixes the shapes of `SchemaV1`, `ManifestV1`,
`ProofV1` and `InclusionProof`, §6.2–§6.4 their JSON exchange forms; the
fields below are the ones the code under `src/` reads and writes.  The spec
leaves the JSON form of entities and edges open beyond their identifying
fields; the serialization below emits exactly the modelled fields (only
determinism of the canonical hash matters to the claims, not the precise
field set). -/

structure EntityV1 where
  id : String
  type : String
  name : String
deriving DecidableEq, Repr

structure EdgeV1 where
  id : String
  type : String
  fromId : String
  toId : String
deriving DecidableEq, Repr

structure SchemaV1 where
  version : String
  kind : String
  meta : Json
  entities : List EntityV1
  edges : List EdgeV1

structure SchemaRefV1 where
  name : String
  digest : String
deriving DecidableEq, Repr

structure LimitsV1 where
  max_files : Nat
  max_bytes : Nat
  max_nodes : Nat
  max_edges : Nat
  timeout_ms : Nat
  network : String
deriving DecidableEq, Repr

structure InputRefV1 where
  type : String
  locator : String
  digest : Option String
deriving DecidableEq, Repr

structure OutputRefV1 where
  type : String
  locator : String
  expected_digest : Option String
deriving DecidableEq, Repr

structure PluginRefV1 where
  name : String
  version : String
  config : Option Json

structure ManifestV1 where
  version : String
  name : String
  schemas : List SchemaRefV1
  inputs : List InputRefV1
  outputs : List OutputRefV1
  plugins : List PluginRefV1
  limits : LimitsV1
  labels : Option (List (String × String))

/-- `ManifestV1::new(name, limits)`. -/
def ManifestV1.new (name : String) (limits : LimitsV1) : ManifestV1 :=
  ⟨"v1", name, [], [], [], [], limits, none⟩

structure LeafV1 where
  key : String
  value : String
deriving DecidableEq, Repr

structure SiblingV1 where
  side : String
  hash : String
deriving DecidableEq, Repr

structure InclusionProofV1 where
  key : String
  value : String
  siblings : List SiblingV1
deriving DecidableEq, Repr

structure ProofV1 where
  version : String
  hash_alg : String
  root : String
  leaves : List LeafV1
  inclusions : Option (List InclusionProofV1)
deriving DecidableEq, Repr

/-- `ProofV1::new(alg, root)`. -/
def ProofV1.new (alg root : String) : ProofV1 :=
  ⟨"v1", alg, root, [], none⟩

/-- JSON form of a `SchemaV1` (§6.2); key order is irrelevant because the
canonical encoder sorts keys. -/
def SchemaV1.toJson (s : SchemaV1) : Json :=
  .obj [("version", .str s.version), ("kind", .str s.kind), ("meta", s.meta),
        ("entities", .arr (s.entities.map fun e =>
          .obj [("id", .str e.id), ("type", .str e.type), ("name", .str e.name)])),
        ("edges", .arr (s.edges.map fun e =>
          .obj [("id", .str e.id), ("type", .str e.type),
                ("from", .str e.fromId), ("to", .str e.toId)]))]

def optStrJson : Option String → Json
  | some s => .str s
  | none => .null

/-- JSON form of a `ManifestV1` (§6.3). -/
def ManifestV1.toJson (m : ManifestV1) : Json :=
  .obj ([("version", .str m.version), ("name", .str m.name),
        ("schemas", .arr (m.schemas.map fun s =>
          .obj [("name", .str s.name), ("digest", .str s.digest)])),
        ("inputs", .arr (m.inputs.map fun i =>
          .obj [("type", .str i.type), ("locator", .str i.locator),
                ("digest", optStrJson i.digest)])),
        ("outputs", .arr (m.outputs.map fun o =>
          .obj [("type", .str o.type), ("locator", .str o.locator),
                ("expected_digest", optStrJson o.expected_digest)])),
        ("plugins", .arr (m.plugins.map fun p =>
          .obj [("name", .str p.name), ("version", .str p.version),
                ("config", p.config.getD .null)])),
        ("limits", .obj [("maxFiles", .num m.limits.max_files),
                         ("maxBytes", .num m.limits.max_bytes),
                         ("maxNodes", .num m.limits.max_nodes),
                         ("maxEdges", .num m.limits.max_edges),
                         ("timeoutMs", .num m.limits.timeout_ms),
                         ("network", .str m.limits.network)])] ++
        (match m.labels with
         | none => []
         | some ls => [("labels", .obj (ls.map fun kv => (kv.1, .str kv.2)))]))

/-- `hash_schema_v1_hex`. -/
def hash_schema_v1_hex (s : SchemaV1) : SigniaResult String :=
  hash_canonical_json_hex s.toJson

/-- `hash_manifest_v1_hex`. -/
def hash_manifest_v1_hex (m : ManifestV1) : SigniaResult String :=
  hash_canonical_json_hex m.toJson

/-! ## IR graph (`signia-core/src/model/ir.rs` is not under `src/`)

Modelled from the spec: §3 fixes the node/edge fields and the graph
invariants, §4.D the id strategy and schema emission.  The graph's node and
edge collections are modelled as lists. -/

structure IrNode where
  id : String
  key : String
  node_type : String
  name : String
  attrs : List (String × Json)
  digests : List String
  provenance : Option String
  diagnostics : List String

structure IrEdge where
  id : String
  key : String
  edge_type : String
  fromId : String
  toId : String
  attrs : List (String × Json)
  provenance : Option String
  diagnostics : List String

structure IrGraph where
  nodes : List IrNode
  edges : List IrEdge

/-- Does the list contain a repeated element? -/
def hasDup : List String → Bool
  | [] => false
  | x :: xs => x ∈ xs || hasDup xs

/-- Modelled from the spec: §3 graph invariants — node ids unique, edge ids
unique, every edge endpoint refers to an existing node (the vague
self-reference clause of §3 names no forbidding edge type and is not
enforced). -/
def IrGraph.validate_basic (g : IrGraph) : SigniaResult Unit :=
  let nodeIds := g.nodes.map (·.id)
  if hasDup nodeIds then .error (.invalid_argument "duplicate node id")
  else if hasDup (g.edges.map (·.id)) then .error (.invalid_argument "duplicate edge id")
  else if g.edges.any (fun e => !(nodeIds.contains e.fromId && nodeIds.contains e.toId)) then
    .error (.invalid_argument "dangling edge endpoint")
  else .ok ()

/-- Lexicographic strict comparison of string pairs (Rust tuple `cmp`). -/
def pairLtB (a b : String × String) : Bool :=
  strLtB a.1 b.1 || (a.1 == b.1 && strLtB a.2 b.2)

/-- Node traversal order of §4.D: ascending by `(type, key)`. -/
def nodeLe (a b : IrNode) : Prop :=
  pairLtB (b.node_type, b.key) (a.node_type, a.key) = false

instance : DecidableRel nodeLe := fun a b =>
  (inferInstance : Decidable (_ = false))

/-- Edge traversal order of §4.D: sorted by `(type, from_key, to_key, key)`,
where `from_key`/`to_key` are the business keys of the endpoint nodes. -/
def edgeSortKey (g : IrGraph) (e : IrEdge) : String × String × String × String :=
  let keyOf := fun (i : String) =>
    match g.nodes.find? (fun n => n.id = i) with
    | some n => n.key
    | none => ""
  (e.edge_type, keyOf e.fromId, keyOf e.toId, e.key)

/-- Lexicographic strict comparison of string 4-tuples (Rust tuple `cmp`). -/
def quadLtB (a b : String × String × String × String) : Bool :=
  strLtB a.1 b.1 || (a.1 == b.1 && (strLtB a.2.1 b.2.1 || (a.2.1 == b.2.1 &&
    (strLtB a.2.2.1 b.2.2.1 || (a.2.2.1 == b.2.2.1 && strLtB a.2.2.2 b.2.2.2)))))

def edgeLe (g : IrGraph) (a b : IrEdge) : Prop :=
  quadLtB (edgeSortKey g b) (edgeSortKey g a) = false

instance (g : IrGraph) : DecidableRel (edgeLe g) := fun a b =>
  (inferInstance : Decidable (_ = false))

/-- Index of the node with the given id. -/
def idxOfNode : List IrNode → String → Option Nat
  | [], _ => none
  | n :: rest, i =>
    if n.id = i then some 0
    else (idxOfNode rest i).map (· + 1)

/-- Modelled from the spec: §4.D `DefaultIdStrategy` — entity ids are
`n<ordinal>`, edge ids `e<ordinal>`, with the ordinal the index in the sorted
traversal, making ids a function of the input rather than insertion order. -/
def entityIdFor (i : Nat) : String := "n" ++ Nat.repr i

def edgeIdFor (i : Nat) : String := "e" ++ Nat.repr i

/-- Emission of one sorted-traversal edge: resolve both endpoints to entity
ordinals in the sorted node list and rewrite them to entity ids. -/
def emitEdge (sortedNodes : List IrNode) (p : Nat × IrEdge) : SigniaResult EdgeV1 := do
  let fi ← match idxOfNode sortedNodes p.2.fromId with
    | some i => Except.ok i
    | none => Except.error (SigniaError.invariant "edge.from refers to unknown node")
  let ti ← match idxOfNode sortedNodes p.2.toId with
    | some i => Except.ok i
    | none => Except.error (SigniaError.invariant "edge.to refers to unknown node")
  Except.ok (EdgeV1.mk (edgeIdFor p.1) p.2.edge_type (entityIdFor fi) (entityIdFor ti))

/-- Modelled from the spec: §4.D `emit_schema(kind, meta, id_strategy)` —
traverses nodes sorted by `(type, key)` and edges sorted by
`(type, from_key, to_key, key)`, producing `EntityV1`/`EdgeV1` with stable
ids; edge endpoints are rewritten to the entity ids of their nodes. -/
def IrGraph.emit_schema_v1 (g : IrGraph) (kind : String) (meta : Json) :
    SigniaResult SchemaV1 := do
  let sortedNodes := g.nodes.insertionSort nodeLe
  let entities := sortedNodes.enum.map fun p =>
    EntityV1.mk (entityIdFor p.1) p.2.node_type p.2.name
  let sortedEdges := g.edges.insertionSort (edgeLe g)
  let edges ← sortedEdges.enum.mapM (emitEdge sortedNodes)
  .ok ⟨"v1", kind, meta, entities, edges⟩

/-! ## Pipeline runtime (`signia-core/src/pipeline/mod.rs`) -/

inductive DiagnosticLevel where
  | info
  | warning
  | error
deriving DecidableEq, Repr

structure PipelineDiagnostic where
  level : DiagnosticLevel
  code : String
  message : String
  data : List (String × String)
deriving DecidableEq, Repr

structure DeterministicClock where
  now_iso8601 : String
deriving DecidableEq, Repr

def DeterministicClock.default : DeterministicClock :=
  ⟨"1970-01-01T00:00:00Z"⟩

structure PipelineContext where
  clock : DeterministicClock
  params : List (String × String)
  json_params : List (String × Json)
  diagnostics : List PipelineDiagnostic

def PipelineContext.default : PipelineContext :=
  ⟨DeterministicClock.default, [], [], []⟩

def PipelineContext.push_info (ctx : PipelineContext) (code message : String) :
    PipelineContext :=
  { ctx with diagnostics := ctx.diagnostics ++ [⟨.info, code, message, []⟩] }

def PipelineContext.push_warning (ctx : PipelineContext) (code message : String) :
    PipelineContext :=
  { ctx with diagnostics := ctx.diagnostics ++ [⟨.warning, code, message, []⟩] }

def PipelineContext.push_error (ctx : PipelineContext) (code message : String) :
    PipelineContext :=
  { ctx with diagnostics := ctx.diagnostics ++ [⟨.error, code, message, []⟩] }

/-- `BTreeMap::insert`: replace the entry or add it. -/
def assocSet {α : Type} : List (String × α) → String → α → List (String × α)
  | [], k, v => [(k, v)]
  | (k', v') :: rest, k, v =>
    if k' = k then (k, v) :: rest else (k', v') :: assocSet rest k v

def PipelineContext.set_param (ctx : PipelineContext) (k v : String) : PipelineContext :=
  { ctx with params := assocSet ctx.params k v }

def PipelineContext.get_param (ctx : PipelineContext) (k : String) : Option String :=
  lookupEntry ctx.params k

def PipelineContext.set_json_param (ctx : PipelineContext) (k : String) (v : Json) :
    PipelineContext :=
  { ctx with json_params := assocSet ctx.json_params k v }

def PipelineContext.get_json_param (ctx : PipelineContext) (k : String) : Option Json :=
  lookupEntry ctx.json_params k

inductive PipelineData where
  | none
  | json (v : Json)
  | bytes (bs : List Nat)
  | ir (g : IrGraph)
  | schemaV1 (s : SchemaV1)
  | manifestV1 (m : ManifestV1)
  | proofV1 (p : ProofV1)

/-- Constructor tag shown in `{other:?}`-style messages (the Rust `Debug`
form also prints the payload, which no claim observes). -/
def PipelineData.tag : PipelineData → String
  | .none => "None"
  | .json _ => "Json"
  | .bytes _ => "Bytes"
  | .ir _ => "Ir"
  | .schemaV1 _ => "SchemaV1"
  | .manifestV1 _ => "ManifestV1"
  | .proofV1 _ => "ProofV1"

/-- A pipeline stage: `run` receives the context by `&mut` and may both
update it and fail, hence the pair result. -/
structure Stage where
  id : String
  run : PipelineContext → PipelineData → PipelineContext × SigniaResult PipelineData

structure PipelineReport where
  output : PipelineData
  diagnostics : List PipelineDiagnostic

def PipelineReport.has_errors (r : PipelineReport) : Bool :=
  r.diagnostics.any fun d => d.level = .error

/-- `Pipeline::run` (mod.rs:226): records `pipeline.stage.start` /
`pipeline.stage.end` around each stage; on a stage error the error is
returned through `?` and the context — with its accumulated diagnostics —
is dropped. -/
def pipelineGo : List Stage → PipelineContext → PipelineData → SigniaResult PipelineReport
  | [], ctx, data => .ok ⟨data, ctx.diagnostics⟩
  | st :: rest, ctx, data =>
    let ctx1 := ctx.push_info "pipeline.stage.start" ("starting stage " ++ st.id)
    match st.run ctx1 data with
    | (_, .error e) => .error e
    | (ctx2, .ok d2) =>
      let ctx3 := ctx2.push_info "pipeline.stage.end" ("completed stage " ++ st.id)
      pipelineGo rest ctx3 d2

def Pipeline.run (stages : List Stage) (ctx : PipelineContext) (input : PipelineData) :
    SigniaResult PipelineReport :=
  pipelineGo stages ctx input

/-! ## Built-in stages (`signia-core/src/pipeline/stages.rs`) -/

def ValidateIrStage (id : String) : Stage :=
  ⟨id, fun ctx input =>
    match input with
    | .ir g =>
      match g.validate_basic with
      | .error e => (ctx, .error e)
      | .ok _ => (ctx.push_info "ir.validated" "IR basic validation succeeded", .ok (.ir g))
    | other =>
      (ctx, .error (.invalid_argument ("expected PipelineData::Ir, got " ++ other.tag)))⟩

def NormalizeIrStage (id : String) : Stage :=
  ⟨id, fun ctx input =>
    match input with
    | .ir g =>
      match g.validate_basic with
      | .error e => (ctx, .error e)
      | .ok _ =>
        let msg := "IR normalized (nodes=" ++ Nat.repr g.nodes.length ++
          ", edges=" ++ Nat.repr g.edges.length ++ ")"
        (ctx.push_info "ir.normalized" msg, .ok (.ir g))
    | other =>
      (ctx, .error (.invalid_argument ("expected PipelineData::Ir, got " ++ other.tag)))⟩

/-- `EmitSchemaV1Stage::meta_from_ctx`: prefers the JSON param; the fallback
that parses `ctx.params["schema.meta"]` as JSON text is not modelled (the
compile orchestrator always sets the JSON param) and collapses into the
missing-meta error. -/
def metaFromCtx (ctx : PipelineContext) : SigniaResult Json :=
  match ctx.get_json_param "schema.meta" with
  | some v => .ok v
  | none => .error (.invalid_argument "missing schema.meta")

def EmitSchemaV1Stage (id : String) : Stage :=
  ⟨id, fun ctx input =>
    match ctx.get_param "schema.kind" with
    | none => (ctx, .error (.invalid_argument "missing schema.kind in ctx params"))
    | some kind =>
      match metaFromCtx ctx with
      | .error e => (ctx, .error e)
      | .ok meta =>
        match input with
        | .ir g =>
          match g.validate_basic with
          | .error e => (ctx, .error e)
          | .ok _ =>
            match g.emit_schema_v1 kind meta with
            | .error e => (ctx, .error e)
            | .ok schema =>
              (ctx.push_info "emit.schema_v1" "emitted SchemaV1 from IR", .ok (.schemaV1 schema))
        | other =>
          (ctx, .error (.invalid_argument ("expected PipelineData::Ir, got " ++ other.tag)))⟩

/-! ## Compile orchestration (`signia-core/src/pipeline/compile.rs`) -/

structure InputSpec where
  type : String
  locator : String
  digest : Option String

structure OutputSpec where
  type : String
  locator : String
  expected_digest : Option String

structure PluginSpecRef where
  name : String
  version : String
  config : Option Json

structure LimitsSpec where
  max_files : Nat
  max_bytes : Nat
  max_nodes : Nat
  max_edges : Nat
  timeout_ms : Nat
  network : String

def LimitsSpec.default : LimitsSpec :=
  ⟨50000, 512 * 1024 * 1024, 2000000, 4000000, 60000, "deny"⟩

structure CompileRequest where
  kind : String
  meta : Json
  created_at : String
  labels : List (String × String)
  inputs : List InputSpec
  outputs : List OutputSpec
  plugins : List PluginSpecRef
  limits : LimitsSpec
  run_inference : Bool
  build_proof : Bool

structure CompileBundle where
  schema : SchemaV1
  manifest : ManifestV1
  proof : Option ProofV1

structure CompileStats where
  entities : Nat
  edges : Nat
  leaf_count : Nat
deriving DecidableEq, Repr

structure CompileReport where
  bundle : CompileBundle
  diagnostics : List PipelineDiagnostic
  stats : CompileStats

/-- `CompileRequest::to_manifest_v1`. -/
def CompileRequest.to_manifest_v1 (req : CompileRequest) (schema_digest_hex : Option String) :
    ManifestV1 :=
  let m := ManifestV1.new "signia-compile" (LimitsV1.mk req.limits.max_files
    req.limits.max_bytes req.limits.max_nodes req.limits.max_edges
    req.limits.timeout_ms req.limits.network)
  let m := match schema_digest_hex with
    | some d => { m with schemas := m.schemas ++ [SchemaRefV1.mk req.kind d] }
    | none => m
  let m := { m with
    inputs := req.inputs.map fun i => InputRefV1.mk i.type i.locator i.digest,
    outputs := req.outputs.map fun o => OutputRefV1.mk o.type o.locator o.expected_digest,
    plugins := req.plugins.map fun p => PluginRefV1.mk p.name p.version p.config }
  if req.labels.isEmpty then m else { m with labels := some req.labels }

/-- Leaf ordering used by both compile and verify: ascending by key. -/
def leafLe (a b : LeafV1) : Prop := strLtB b.key a.key = false

instance : DecidableRel leafLe := fun a b =>
  (inferInstance : Decidable (_ = false))

/-- The Merkle payload of a proof leaf: the UTF-8 bytes of `<key>=<value>`. -/
def leafPayload (l : LeafV1) : List Nat :=
  utf8 (l.key ++ "=" ++ l.value)

/-- The context `compile_from_ir` builds: injected clock, schema kind and
meta parameters. -/
def compileCtx (req : CompileRequest) : PipelineContext :=
  (({ PipelineContext.default with clock := ⟨req.created_at⟩ }).set_param
    "schema.kind" req.kind).set_json_param "schema.meta" req.meta

/-- The stage list `compile_from_ir` runs. -/
def compileStages : List Stage :=
  [ValidateIrStage "ir.validate", NormalizeIrStage "ir.normalize",
   EmitSchemaV1Stage "emit.schema_v1"]

/-- The `match report.output` of compile.rs:256: require a `SchemaV1`
pipeline output. -/
def extractSchema (d : PipelineData) : SigniaResult SchemaV1 :=
  match d with
  | .schemaV1 s => .ok s
  | other =>
    .error (.invariant ("pipeline did not emit SchemaV1, got " ++ other.tag))

/-- The proof-building block of compile.rs:275–317: the four leaves, the
deterministic sort, and the Merkle root over `key=value` payloads. -/
def buildProofOpt (build : Bool) (schema_hash_hex manifest_hash_hex kind created_at : String) :
    SigniaResult (Option ProofV1) :=
  if build then do
    let leaves : List LeafV1 :=
      [⟨"digest:schemaHash", schema_hash_hex⟩,
       ⟨"digest:manifestHash", manifest_hash_hex⟩,
       ⟨"meta:kind", hash_bytes_hex (utf8 kind)⟩,
       ⟨"meta:createdAt", hash_bytes_hex (utf8 created_at)⟩]
    let leaves := leaves.insertionSort leafLe
    let tree := MerkleTree.new ⟨"sha256", domainMERKLE_LEAF, domainMERKLE_NODE⟩
    let tree ← leaves.foldlM (fun t l => t.push_leaf (leafPayload l)) tree
    let root ← tree.root_hex
    Except.ok (some { ProofV1.new "sha256" root with leaves := leaves })
  else Except.ok Option.none

/-- `compile_from_ir` (compile.rs:212).  The optional caller id strategy is
not modelled: the emission stage always uses `DefaultIdStrategy`.  The
inference pass (`run_inference`) is treated as the identity, as the spec
directs for an absent host rule-set. -/
def compile_from_ir (ir : IrGraph) (req : CompileRequest) : SigniaResult CompileReport := do
  let _ ← ir.validate_basic
  if ir.nodes.length > req.limits.max_nodes then
    .error (.invalid_argument ("IR exceeds max_nodes (" ++ Nat.repr ir.nodes.length ++
      " > " ++ Nat.repr req.limits.max_nodes ++ ")"))
  else if ir.edges.length > req.limits.max_edges then
    .error (.invalid_argument ("IR exceeds max_edges (" ++ Nat.repr ir.edges.length ++
      " > " ++ Nat.repr req.limits.max_edges ++ ")"))
  else do
    let report ← Pipeline.run compileStages (compileCtx req) (.ir ir)
    let schema ← extractSchema report.output
    let schema_hash_hex ← hash_schema_v1_hex schema
    let manifest_hash_hex ← hash_manifest_v1_hex (req.to_manifest_v1 (some schema_hash_hex))
    let proof ← buildProofOpt req.build_proof schema_hash_hex manifest_hash_hex
      req.kind req.created_at
    .ok ⟨⟨schema, req.to_manifest_v1 (some schema_hash_hex), proof⟩, report.diagnostics,
      ⟨schema.entities.length, schema.edges.length,
       (proof.map fun p => p.leaves.length).getD 0⟩⟩

/-! ## Verification orchestration (`signia-core/src/pipeline/verify.rs`) -/

structure VerifyBundle where
  schema : SchemaV1
  manifest : ManifestV1
  proof : Option ProofV1

structure VerifyOptions where
  require_proof : Bool
  validate_inclusions : Bool
  require_manifest_binding : Bool
deriving DecidableEq, Repr

def VerifyOptions.default : VerifyOptions :=
  ⟨true, true, true⟩

structure VerifyFinding where
  level : DiagnosticLevel
  code : String
  message : String
  data : List (String × String)
deriving DecidableEq, Repr

structure VerifyReport where
  ok : Bool
  findings : List VerifyFinding
  schema_hash_hex : Option String
  manifest_hash_hex : Option String
  proof_root_hex : Option String
deriving DecidableEq, Repr

def VerifyReport.has_errors (r : VerifyReport) : Bool :=
  r.findings.any fun f => f.level = .error

def finding (level : DiagnosticLevel) (code message : String) : VerifyFinding :=
  ⟨level, code, message, []⟩

/-- Entity checks of `verify_schema_structure` (verify.rs:278): per entity,
empty id, duplicate id against the ids seen so far, empty type. -/
def entityFindings : List String → List EntityV1 → List VerifyFinding
  | _, [] => []
  | seen, e :: rest =>
    (if isBlank e.id then [finding .error "schema.entity.id" "entity id is empty"] else []) ++
    (if e.id ∈ seen then
      [finding .error "schema.entity.id.duplicate" "duplicate entity id"] else []) ++
    (if isBlank e.type then [finding .error "schema.entity.type" "entity type is empty"] else []) ++
    entityFindings (e.id :: seen) rest

/-- Edge checks of `verify_schema_structure` (verify.rs:297): empty refs and
unknown endpoints against the full entity id set. -/
def edgeFindings (ids : List String) : List EdgeV1 → List VerifyFinding
  | [] => []
  | e :: rest =>
    (if isBlank e.fromId || isBlank e.toId then
      [finding .error "schema.edge.refs" "edge refs empty"] else []) ++
    (if ids.contains e.fromId then [] else
      [finding .error "schema.edge.from.unknown" "edge.from refers to unknown entity"]) ++
    (if ids.contains e.toId then [] else
      [finding .error "schema.edge.to.unknown" "edge.to refers to unknown entity"]) ++
    edgeFindings ids rest

/-- `verify_schema_structure` (verify.rs:245), as the list of findings it
pushes (the function itself always returns `Ok`). -/
def verify_schema_structure (s : SchemaV1) : List VerifyFinding :=
  (if s.version = "v1" then [] else
    [finding .error "schema.version" ("unsupported schema version: " ++ s.version)]) ++
  (if isBlank s.kind then [finding .error "schema.kind" "schema.kind is empty"] else []) ++
  (if s.meta.isObject then
    (["name", "createdAt", "source", "normalization"].foldr (fun k acc =>
      (if s.meta.hasKey k then [] else
        [finding .error "schema.meta.missing" ("schema.meta missing required key: " ++ k)]) ++ acc)
      [])
   else [finding .error "schema.meta" "schema.meta must be an object"]) ++
  entityFindings [] s.entities ++
  edgeFindings (s.entities.map (·.id)) s.edges

/-- `verify_manifest_structure` (verify.rs:324), as its finding list. -/
def verify_manifest_structure (m : ManifestV1) : List VerifyFinding :=
  (if m.version = "v1" then [] else
    [finding .error "manifest.version" ("unsupported manifest version: " ++ m.version)]) ++
  (if isBlank m.name then [finding .error "manifest.name" "manifest.name is empty"] else []) ++
  (if m.limits.max_files = 0 then
    [finding .warning "manifest.limits.maxFiles" "maxFiles is 0"] else []) ++
  (if m.limits.timeout_ms = 0 then
    [finding .warning "manifest.limits.timeoutMs" "timeoutMs is 0"] else [])

/-- `recompute_proof_root_hex` (verify.rs:355): re-sort the stored leaves by
key and rebuild the tree over `key=value` payloads. -/
def recompute_proof_root_hex (p : ProofV1) : SigniaResult String := do
  let leaves := p.leaves.insertionSort leafLe
  let tree := MerkleTree.new ⟨p.hash_alg, domainMERKLE_LEAF, domainMERKLE_NODE⟩
  let tree ← leaves.foldlM (fun t l => t.push_leaf (leafPayload l)) tree
  tree.root_hex

/-- The leaf map of `verify_bundle` (verify.rs:173): a `BTreeMap` built by
inserting the stored leaves in order, so a later leaf overwrites an earlier
one with the same key. -/
def leafMapGet : List LeafV1 → String → Option String
  | [], _ => none
  | l :: rest, k =>
    match leafMapGet rest k with
    | some v => some v
    | none => if l.key = k then some l.value else none

/-- Sibling fold of `verify_inclusion` (verify.rs:399): a `left` side places
the sibling first, a `right` side second; an unknown side is an error. -/
def inclFold (alg : String) : String → List SiblingV1 → SigniaResult String
  | h, [] => .ok h
  | h, s :: rest =>
    if s.side ≠ "left" ∧ s.side ≠ "right" then
      .error (.invalid_argument "sibling.side must be left or right")
    else do
      let h' ← if s.side = "left" then hash_merkle_node_hex alg s.hash h
        else hash_merkle_node_hex alg h s.hash
      inclFold alg h' rest

/-- `verify_inclusion` (verify.rs:382). -/
def verify_inclusion (p : ProofV1) (inc : InclusionProofV1) : SigniaResult Unit := do
  let found := p.leaves.any fun l => l.key = inc.key ∧ l.value = inc.value
  if !found then
    .error (.invalid_argument "inclusion leaf not present in proof")
  else do
    let h0 ← hash_merkle_leaf_hex p.hash_alg (utf8 (inc.key ++ "=" ++ inc.value))
    let h ← inclFold p.hash_alg h0 inc.siblings
    if h ≠ p.root then .error (.invariant "inclusion proof root mismatch")
    else .ok ()

/-- The inclusion-check findings of `verify_bundle` (verify.rs:216). -/
def inclusionFindings (p : ProofV1) : List InclusionProofV1 → List VerifyFinding
  | [] => []
  | inc :: rest =>
    (match verify_inclusion p inc with
     | .ok _ => []
     | .error e =>
       [finding .error "proof.inclusion.invalid"
         ("inclusion proof invalid for " ++ inc.key ++ ": " ++ e.message)]) ++
    inclusionFindings p rest

/-- `verify_bundle` (verify.rs:117). -/
def verify_bundle (bundle : VerifyBundle) (opts : VerifyOptions) : SigniaResult VerifyReport := do
  let findings := verify_schema_structure bundle.schema ++
    verify_manifest_structure bundle.manifest
  let schema_hash ← hash_schema_v1_hex bundle.schema
  let manifest_hash ← hash_manifest_v1_hex bundle.manifest
  let findings := findings ++
    [finding .info "hash.schema" ("schema hash computed: " ++ schema_hash),
     finding .info "hash.manifest" ("manifest hash computed: " ++ manifest_hash)]
  let findings := findings ++
    (if opts.require_manifest_binding then
      (if bundle.manifest.schemas.any (fun s => s.digest = schema_hash) then [] else
        [finding .error "manifest.binding.missing"
          "manifest.schemas does not contain schema digest"])
     else [])
  let findings := findings ++
    (if opts.require_proof ∧ bundle.proof.isNone then
      [finding .error "proof.missing" "proof is required but not provided"] else [])
  let (findings, proof_root) ←
    match bundle.proof with
    | Option.none => Except.ok (findings, Option.none)
    | some p => do
      let findings := findings ++
        (if leafMapGet p.leaves "digest:schemaHash" = some schema_hash then [] else
          [finding .error "proof.leaf.schemaHash.mismatch"
            "proof leaf digest:schemaHash does not match computed schema hash"]) ++
        (if leafMapGet p.leaves "digest:manifestHash" = some manifest_hash then [] else
          [finding .error "proof.leaf.manifestHash.mismatch"
            "proof leaf digest:manifestHash does not match computed manifest hash"])
      let root ← recompute_proof_root_hex p
      let findings := findings ++
        (if root = p.root then [finding .info "proof.root.ok" "proof root matches"]
         else [finding .error "proof.root.mismatch"
           "recomputed proof root does not match provided root"])
      let findings := findings ++
        (if opts.validate_inclusions then
          (match p.inclusions with
           | some incs => inclusionFindings p incs
           | Option.none => [])
         else [])
      Except.ok (findings, some root)
  let ok := !findings.any fun f => f.level = .error
  .ok ⟨ok, findings, some schema_hash, some manifest_hash, proof_root⟩

/-! ## Repo path normalization (`signia-plugins/src/builtin/repo/tree_walk.rs`)

The plugins crate reports errors through `anyhow`; such errors are modelled
by their message string. -/

/-- Collapse the `while s.contains("//") { replace("//", "/") }` loop: the
loop's fixpoint deletes slashes until no two are adjacent, i.e. collapses
every run of slashes to a single one (fuelled by the length). -/
def collapseSlashAux : Nat → List Char → List Char
  | 0, l => l
  | _ + 1, [] => []
  | _ + 1, [c] => [c]
  | f + 1, c1 :: c2 :: rest =>
    if c1 = '/' ∧ c2 = '/' then collapseSlashAux f (c2 :: rest)
    else c1 :: collapseSlashAux f (c2 :: rest)

/-- `while s.starts_with("./") { trim_start_matches("./") }`: drop every
leading `./`. -/
def dropDotSlash : List Char → List Char
  | '.' :: '/' :: rest => dropDotSlash rest
  | l => l

/-- Split on `/`. -/
def splitSlash (l : List Char) : List (List Char) :=
  l.foldr (fun x acc =>
    match acc with
    | [] => [[x]]
    | s :: rest => if x = '/' then [] :: s :: rest else (x :: s) :: rest) [[]]

/-- `normalize_repo_path` (tree_walk.rs:79): backslashes to `/`, collapse
`//`, strip leading `./` and `/`, reject `..` segments. -/
def normalize_repo_path (p : String) : Except String String :=
  let s1 := p.data.map fun c => if c = '\\' then '/' else c
  let s2 := collapseSlashAux s1.length s1
  let s3 := dropDotSlash s2
  let s4 := s3.dropWhile (· = '/')
  if (splitSlash s4).any (· = ['.', '.']) then
    .error ("path contains '..' segment: " ++ p)
  else .ok ⟨s4⟩

/-! ## Dataset checksums (`signia-plugins/src/builtin/dataset/checksum.rs`) -/

structure DatasetFileRecord where
  path : String
  size : Nat
  bytes : Option (List Nat)
  sha256Hex : Option String
deriving DecidableEq, Repr

/-- `ensure_file_sha256` (checksum.rs:67), functionally: with bytes present,
recompute hash and size from the bytes; otherwise a precomputed hash is
required. -/
def ensure_file_sha256 (r : DatasetFileRecord) : Except String DatasetFileRecord :=
  match r.bytes with
  | some b => .ok { r with sha256Hex := some (hash_bytes_hex b), size := b.length }
  | Option.none =>
    match r.sha256Hex with
    | Option.none => .error ("missing sha256 for file without bytes: " ++ r.path)
    | some _ => .ok r

/-- Record ordering used by `dataset_fingerprint`: ascending by path. -/
def recLe (a b : DatasetFileRecord) : Prop := strLtB b.path a.path = false

instance : DecidableRel recLe := fun a b =>
  (inferInstance : Decidable (_ = false))

/-- The `path \t size \t sha256 \n` line of one record. -/
def recordLine (f : DatasetFileRecord) : List Nat :=
  utf8 f.path ++ [9] ++ utf8 (Nat.repr f.size) ++ [9] ++
    utf8 (f.sha256Hex.getD "") ++ [10]

/-- `dataset_fingerprint` (checksum.rs:103): normalize every path, ensure
every sha256, sort by (normalized) path, hash the concatenated lines. -/
def dataset_fingerprint (files : List DatasetFileRecord) : Except String String := do
  let files ← files.mapM fun f => do
    let p ← normalize_repo_path f.path
    ensure_file_sha256 { f with path := p }
  let files := files.insertionSort recLe
  .ok (hash_bytes_hex (files.foldr (fun f acc => recordLine f ++ acc) []))

/-! ## Workflow validation (`signia-plugins/src/builtin/workflow/validate.rs`) -/

/-- Node loop of `validate_nodes` (validate.rs:66); `idx` is the running
index used in messages, `seen` the id set accumulated so far. -/
def validateNodesAux : Nat → List String → List Json → Except String Unit
  | _, _, [] => .ok ()
  | idx, seen, n :: rest =>
    match n.asObj with
    | Option.none => .error ("workflow.nodes[" ++ Nat.repr idx ++ "] must be an object")
    | some _ =>
      match (n.get "id").bind Json.asStr with
      | Option.none => .error ("workflow.nodes[" ++ Nat.repr idx ++ "].id is required")
      | some id =>
        if isBlank id then
          .error ("workflow.nodes[" ++ Nat.repr idx ++ "].id must not be empty")
        else if id ∈ seen then
          .error ("duplicate workflow node id: " ++ id)
        else
          match (n.get "type").bind Json.asStr with
          | Option.none => .error ("workflow.nodes[" ++ Nat.repr idx ++ "].type is required")
          | some ty =>
            if isBlank ty then
              .error ("workflow.nodes[" ++ Nat.repr idx ++ "].type must not be empty")
            else
              match n.get "meta" with
              | some m =>
                if m.isObject then
                  match n.get "inputs" with
                  | some i =>
                    if i.isObject then validateNodesAux (idx + 1) (id :: seen) rest
                    else .error ("workflow.nodes[" ++ Nat.repr idx ++
                      "].inputs must be an object if present")
                  | Option.none => validateNodesAux (idx + 1) (id :: seen) rest
                else .error ("workflow.nodes[" ++ Nat.repr idx ++
                  "].meta must be an object if present")
              | Option.none =>
                match n.get "inputs" with
                | some i =>
                  if i.isObject then validateNodesAux (idx + 1) (id :: seen) rest
                  else .error ("workflow.nodes[" ++ Nat.repr idx ++
                    "].inputs must be an object if present")
                | Option.none => validateNodesAux (idx + 1) (id :: seen) rest

def validate_nodes (nodes : List Json) : Except String Unit :=
  validateNodesAux 0 [] nodes

/-- Id re-collection of `validate_edges` (validate.rs:114). -/
def collectNodeIds : List Json → Except String (List String)
  | [] => .ok []
  | n :: rest => do
    match (n.get "id").bind Json.asStr with
    | Option.none => .error "node missing id during edge validation"
    | some id => do
      let tl ← collectNodeIds rest
      .ok (id :: tl)

/-- Edge loop of `validate_edges` (validate.rs:123). -/
def validateEdgesAux (nodeIds : List String) : Nat → List Json → Except String Unit
  | _, [] => .ok ()
  | idx, e :: rest =>
    match e.asObj with
    | Option.none => .error ("workflow.edges[" ++ Nat.repr idx ++ "] must be an object")
    | some _ =>
      match (e.get "from").bind Json.asStr with
      | Option.none => .error ("workflow.edges[" ++ Nat.repr idx ++ "].from is required")
      | some fr =>
        match (e.get "to").bind Json.asStr with
        | Option.none => .error ("workflow.edges[" ++ Nat.repr idx ++ "].to is required")
        | some t2 =>
          if !nodeIds.contains fr then
            .error ("workflow.edges[" ++ Nat.repr idx ++ "].from references unknown node: " ++ fr)
          else if !nodeIds.contains t2 then
            .error ("workflow.edges[" ++ Nat.repr idx ++ "].to references unknown node: " ++ t2)
          else
            match (e.get "kind").bind Json.asStr with
            | Option.none => .error ("workflow.edges[" ++ Nat.repr idx ++ "].kind is required")
            | some kind =>
              if kind ≠ "data" ∧ kind ≠ "control" ∧ kind ≠ "event" then
                .error ("workflow.edges[" ++ Nat.repr idx ++
                  "].kind must be one of data|control|event")
              else
                match e.get "label" with
                | some l =>
                  match l with
                  | .str _ => validateEdgesAux nodeIds (idx + 1) rest
                  | _ => .error ("workflow.edges[" ++ Nat.repr idx ++
                      "].label must be a string if present")
                | Option.none => validateEdgesAux nodeIds (idx + 1) rest

def validate_edges (nodes edges : List Json) : Except String Unit := do
  let ids ← collectNodeIds nodes
  validateEdgesAux ids 0 edges

/-- `validate_workflow` (validate.rs:34). -/
def validate_workflow (v : Json) : Except String Unit := do
  match v.asObj with
  | Option.none => .error "workflow must be a JSON object"
  | some _ =>
    match (v.get "name").bind Json.asStr with
    | Option.none => .error "workflow.name is required"
    | some name =>
      if isBlank name then .error "workflow.name must not be empty"
      else
        match (v.get "nodes").bind Json.asArr with
        | Option.none => .error "workflow.nodes must be an array"
        | some nodes =>
          if nodes.isEmpty then .error "workflow.nodes must not be empty"
          else do
            let edges := ((v.get "edges").bind Json.asArr).getD []
            let _ ← validate_nodes nodes
            validate_edges nodes edges

/-! ## Plugin spec and registry (`signia-plugins/src/spec.rs`, `registry.rs`) -/

structure PluginSpec where
  id : String
  name : String
  version : String
  supports : List String
  supports_versions : List (String × List String)
  limits : List (String × Nat)
  wants : List (String × Bool)
  meta : List (String × String)

def PluginSpec.new (id name version : String) : PluginSpec :=
  ⟨id, name, version, [], [], [], [], []⟩

def isAsciiStr (s : String) : Bool :=
  s.data.all fun c => c.toNat < 128

/-- `PluginSpec::validate` (spec.rs:124). -/
def PluginSpec.validate (s : PluginSpec) : Except String Unit :=
  if isBlank s.id then .error "plugin id is empty"
  else if !isAsciiStr s.id then .error "plugin id must be ASCII"
  else if isBlank s.name then .error "plugin name is empty"
  else if isBlank s.version then .error "plugin version is empty"
  else .ok ()

/-- The registry's `BTreeMap<String, RegisteredPlugin>`, modelled as an
association list keyed by plugin id; the boxed plugin trait object carries no
observable state and is not modelled. -/
structure PluginRegistry where
  plugins : List (String × PluginSpec)

def PluginRegistry.new : PluginRegistry := ⟨[]⟩

/-- `PluginRegistry::register` (registry.rs:50): `&mut self` is modelled by
returning the updated registry next to the result; on an error the registry
is returned unchanged. -/
def PluginRegistry.register (reg : PluginRegistry) (spec : PluginSpec) :
    PluginRegistry × Except String Unit :=
  match spec.validate with
  | .error e => (reg, .error e)
  | .ok _ =>
    if (lookupEntry reg.plugins spec.id).isSome then
      (reg, .error ("plugin id already registered: " ++ spec.id))
    else
      ({ plugins := assocSet reg.plugins spec.id spec }, .ok ())

/-- FIPS 180-4 test vector: `sha256("") = e3b0c442…`. -/
theorem sha256_empty_vector :
    hexEncode (sha256 []) =
      "e3b0c44298fc1c149afbf4c8996fb92427ae41e4649b934ca495991b7852b855" := by
  decide

/-- FIPS 180-4 test vector: `sha256("abc") = ba7816bf…`. -/
theorem sha256_abc_vector :
    hexEncode (sha256 (utf8 "abc")) =
      "ba7816bf8f01cfea414140de5dae2223b00361a396177a9cb410ff61f20015ad" := by
  decide

/-! ## Shared lemmas -/

/-- A sort relation induced by a key into a linear order: a stable insertion
sort of any permutation of a list whose keys are pairwise distinct yields the
same sorted list. -/
theorem insertionSort_eq_of_perm_of_nodup_keys {α β : Type} [LinearOrder β]
    (key : α → β) (r : α → α → Prop) [DecidableRel r]
    (hr : ∀ a b, r a b ↔ key a ≤ key b)
    {l1 l2 : List α} (hp : l1.Perm l2) (hnd : (l1.map key).Nodup) :
    l1.insertionSort r = l2.insertionSort r := by
  haveI htot : IsTotal α r := ⟨fun a b => by
    rcases le_total (key a) (key b) with h | h
    · exact Or.inl ((hr a b).mpr h)
    · exact Or.inr ((hr b a).mpr h)⟩
  haveI htr : IsTrans α r := ⟨fun a b c hab hbc =>
    (hr a c).mpr (le_trans ((hr a b).mp hab) ((hr b c).mp hbc))⟩
  set s := fun a b : α => key a < key b with hs
  haveI : IsAntisymm α s := ⟨fun a b h1 h2 => ((lt_asymm h1) h2).elim⟩
  have perm1 : (l1.insertionSort r).Perm l1 := l1.perm_insertionSort r
  have perm2 : (l2.insertionSort r).Perm l2 := l2.perm_insertionSort r
  have permAll : (l1.insertionSort r).Perm (l2.insertionSort r) :=
    (perm1.trans hp).trans perm2.symm
  have sortedStrict : ∀ l : List α, (l.map key).Nodup →
      (l.insertionSort r).Pairwise s := by
    intro l hl
    have hsorted : (l.insertionSort r).Pairwise r := List.sorted_insertionSort r l
    have hndl : ((l.insertionSort r).map key).Nodup := by
      exact ((l.perm_insertionSort r).map key).nodup_iff.mpr hl
    have hne : (l.insertionSort r).Pairwise fun a b => key a ≠ key b :=
      (List.pairwise_map.mp hndl)
    exact (hsorted.and hne).imp fun hab =>
      lt_of_le_of_ne ((hr _ _).mp hab.1) hab.2
  have hnd2 : (l2.map key).Nodup := (hp.map key).nodup_iff.mp hnd
  exact List.eq_of_perm_of_sorted permAll (sortedStrict l1 hnd) (sortedStrict l2 hnd2)

/-- Sorting an already produced insertion sort again is the identity. -/
theorem insertionSort_idem {α : Type} (r : α → α → Prop) [DecidableRel r]
    [IsTotal α r] [IsTrans α r] (l : List α) :
    (l.insertionSort r).insertionSort r = l.insertionSort r :=
  List.Sorted.insertionSort_eq (List.sorted_insertionSort r l)

theorem leafLe_iff (a b : LeafV1) : leafLe a b ↔ a.key.data ≤ b.key.data :=
  strLtB_eq_false_iff a.key b.key

/-- Rewrite a monadic bind whose scrutinee is known to succeed. -/
theorem exceptBind_ok {ε α β : Type} (x : Except ε α) (u : α) (f : α → Except ε β)
    (h : x = .ok u) : (x >>= f) = f u := by
  rw [h]
  rfl

/-- Rewrite a monadic bind whose scrutinee is known to fail. -/
theorem exceptBind_error {ε α β : Type} (x : Except ε α) (e : ε) (f : α → Except ε β)
    (h : x = .error e) : (x >>= f) = .error e := by
  rw [h]
  rfl

instance : IsTotal LeafV1 leafLe :=
  ⟨fun a b => by
    rcases le_total a.key.data b.key.data with h | h
    · exact Or.inl ((leafLe_iff a b).mpr h)
    · exact Or.inr ((leafLe_iff b a).mpr h)⟩

instance : IsTrans LeafV1 leafLe :=
  ⟨fun a b c hab hbc => (leafLe_iff a c).mpr
    (le_trans ((leafLe_iff a b).mp hab) ((leafLe_iff b c).mp hbc))⟩

/-! ## Claim C3: Merkle leaf and node hashing -/

/-- C3.  `hash_merkle_leaf_hex("sha256", p)` is the lowercase hex of the
SHA-256 of the UTF-8 bytes of `"signia.v1.merkle.leaf"` followed by `p`; and
for hex-decodable `L`, `R`, `hash_merkle_node_hex("sha256", L, R)` is the
lowercase hex of the SHA-256 of the UTF-8 bytes of `"signia.v1.merkle.node"`
followed by the decoded bytes of `L` then of `R`. -/
theorem c3_merkle_hash_formulas :
    (∀ p : List Nat,
      hash_merkle_leaf_hex "sha256" p =
        .ok (hexEncode (sha256 (utf8 "signia.v1.merkle.leaf" ++ p)))) ∧
    (∀ (L R : String) (lbs rbs : List Nat),
      hexDecode L = some lbs → hexDecode R = some rbs →
      hash_merkle_node_hex "sha256" L R =
        .ok (hexEncode (sha256 (utf8 "signia.v1.merkle.node" ++ lbs ++ rbs)))) := by
  constructor
  · intro p
    rfl
  · intro L R lbs rbs hL hR
    unfold hash_merkle_node_hex
    simp only [hL, hR]
    rfl

/-- Witness for C3's hypotheses: decode two concrete hex strings. -/
theorem c3_merkle_hash_formulas_witness :
    hexDecode "00ff" = some [0, 255] ∧ hexDecode "ab" = some [171] ∧
    hash_merkle_node_hex "sha256" "00ff" "ab" =
      .ok (hexEncode (sha256 (utf8 "signia.v1.merkle.node" ++ [0, 255] ++ [171]))) :=
  ⟨by decide, by decide,
   c3_merkle_hash_formulas.2 "00ff" "ab" [0, 255] [171] (by decide) (by decide)⟩

/-! ## Claim C10: plugin registry registration -/

/-- The key list of a registry. -/
def registryIds (reg : PluginRegistry) : List String :=
  reg.plugins.map (·.1)

theorem lookupEntry_isSome_iff {α : Type} (l : List (String × α)) (k : String) :
    (lookupEntry l k).isSome = true ↔ k ∈ l.map (·.1) := by
  induction l with
  | nil => simp [lookupEntry]
  | cons hd tl ih =>
    unfold lookupEntry
    by_cases he : hd.1 = k
    · simp [he]
    · simp only [if_neg he, List.map_cons, List.mem_cons, ih]
      constructor
      · exact Or.inr
      · rintro (h | h)
        · exact absurd h.symm he
        · exact h

theorem assocSet_of_not_mem {α : Type} (l : List (String × α)) (k : String) (v : α)
    (h : k ∉ l.map (·.1)) : assocSet l k v = l ++ [(k, v)] := by
  induction l with
  | nil => rfl
  | cons hd tl ih =>
    simp only [List.map_cons, List.mem_cons] at h
    push_neg at h
    unfold assocSet
    rw [if_neg fun he => h.1 he.symm, ih h.2]
    rfl

theorem hasDup_append_singleton (l : List String) (k : String)
    (h1 : hasDup l = false) (h2 : k ∉ l) :
    hasDup (l ++ [k]) = false := by
  induction l with
  | nil => rfl
  | cons hd tl ih =>
    rw [List.cons_append]
    unfold hasDup at h1 ⊢
    simp only [Bool.or_eq_false_iff, decide_eq_false_iff_not] at h1 ⊢
    simp only [List.mem_cons, not_or] at h2
    refine ⟨?_, ih h1.2 h2.2⟩
    simp only [List.mem_append, List.mem_singleton, not_or]
    exact ⟨h1.1, fun he => h2.1 he.symm⟩

/-- C10.  Registering a plugin whose id is present, or whose spec fails
validation, returns an error and leaves the registry unchanged; and
registration preserves the at-most-one-plugin-per-id invariant. -/
theorem c10_register_duplicate_and_invalid :
    (∀ (reg : PluginRegistry) (spec : PluginSpec) (e : String),
      spec.validate = .error e → reg.register spec = (reg, .error e)) ∧
    (∀ (reg : PluginRegistry) (spec : PluginSpec),
      spec.validate = .ok () → (lookupEntry reg.plugins spec.id).isSome = true →
      reg.register spec = (reg, .error ("plugin id already registered: " ++ spec.id))) ∧
    (∀ (reg : PluginRegistry) (spec : PluginSpec),
      hasDup (registryIds reg) = false →
      hasDup (registryIds (reg.register spec).1) = false) := by
  refine ⟨?_, ?_, ?_⟩
  · intro reg spec e hv
    unfold PluginRegistry.register
    rw [hv]
  · intro reg spec hv hmem
    unfold PluginRegistry.register
    rw [hv]
    simp only [hmem, if_pos]
  · intro reg spec hnd
    unfold PluginRegistry.register
    cases hv : spec.validate with
    | error e => exact hnd
    | ok u =>
      by_cases hmem : (lookupEntry reg.plugins spec.id).isSome = true
      · simp only [hmem, if_pos]
        exact hnd
      · simp only [hmem, if_neg, Bool.not_eq_true]
        have hnotin : spec.id ∉ reg.plugins.map (·.1) := by
          rw [← lookupEntry_isSome_iff]
          simp [hmem]
        unfold registryIds at hnd ⊢
        simp only [assocSet_of_not_mem reg.plugins spec.id spec hnotin, List.map_append]
        exact hasDup_append_singleton _ _ hnd hnotin

def c10Spec1 : PluginSpec := PluginSpec.new "builtin.test" "Test" "0.1.0"

def c10Reg : PluginRegistry := ⟨[("builtin.test", c10Spec1)]⟩

def c10Bad : PluginSpec := PluginSpec.new "" "X" "0.1.0"

/-- Witness for C10: a concrete registry where an invalid spec and a
duplicate id are both rejected without change, and the invariant holds. -/
theorem c10_register_duplicate_and_invalid_witness :
    c10Reg.register c10Bad = (c10Reg, .error "plugin id is empty") ∧
    c10Reg.register c10Spec1 =
      (c10Reg, .error ("plugin id already registered: " ++ c10Spec1.id)) ∧
    hasDup (registryIds (c10Reg.register c10Spec1).1) = false :=
  ⟨c10_register_duplicate_and_invalid.1 c10Reg c10Bad "plugin id is empty" rfl,
   c10_register_duplicate_and_invalid.2.1 c10Reg c10Spec1 rfl rfl,
   c10_register_duplicate_and_invalid.2.2 c10Reg c10Spec1 rfl⟩

/-! ## Claim C5: pipeline failure and diagnostics -/

/-- The diagnostics the context has accumulated at the moment a stage fails
(mirrors `Pipeline::run`, exposing the context it drops); `none` when every
stage succeeds. -/
def diagsBeforeFailure : List Stage → PipelineContext → PipelineData →
    Option (List PipelineDiagnostic)
  | [], _, _ => Option.none
  | st :: rest, ctx, data =>
    let ctx1 := ctx.push_info "pipeline.stage.start" ("starting stage " ++ st.id)
    match st.run ctx1 data with
    | (ctx2, .error _) => some ctx2.diagnostics
    | (ctx2, .ok d2) =>
      diagsBeforeFailure rest (ctx2.push_info "pipeline.stage.end" ("completed stage " ++ st.id)) d2

/-- The always-failing stage of the mod.rs tests. -/
def errStage : Stage :=
  ⟨"test.error", fun ctx _ =>
    (ctx.push_error "test.error" "forced error", .error (.invariant "stage failed"))⟩

/-- The pass-through stage of the mod.rs tests. -/
def passStage : Stage :=
  ⟨"test.pass", fun ctx d => (ctx, .ok d)⟩

/-- C5 counterexample.  Two pipelines whose failing stage sees different
accumulated diagnostic lists (the second run lacks the first stage's
`pipeline.stage.start`/`end` entries) return identical failures: the value
`Pipeline::run` returns on failure is the stage error alone and does not
carry the accumulated diagnostic list. -/
theorem c5_counterexample_diagnostics_dropped :
    Pipeline.run [passStage, errStage] PipelineContext.default .none =
      Pipeline.run [errStage] PipelineContext.default .none ∧
    Pipeline.run [errStage] PipelineContext.default .none =
      .error (.invariant "stage failed") ∧
    diagsBeforeFailure [passStage, errStage] PipelineContext.default .none ≠
      diagsBeforeFailure [errStage] PipelineContext.default .none :=
  ⟨rfl, rfl, by decide⟩

/-- C5 amended: when a stage fails, `Pipeline::run` returns exactly the
stage's error; the context holding the accumulated diagnostic list
(including the recorded `pipeline.stage.start` entries) is dropped, so the
caller does not receive it. -/
theorem c5_pipeline_failure_returns_error_only :
    ∀ (st : Stage) (rest : List Stage) (ctx : PipelineContext) (data : PipelineData)
      (ctx' : PipelineContext) (e : SigniaError),
      st.run (ctx.push_info "pipeline.stage.start" ("starting stage " ++ st.id)) data
        = (ctx', .error e) →
      Pipeline.run (st :: rest) ctx data = .error e := by
  intro st rest ctx data ctx' e h
  unfold Pipeline.run pipelineGo
  simp only []
  rw [h]

/-- Witness for C5's amended theorem at the concrete failing stage. -/
theorem c5_pipeline_failure_returns_error_only_witness :
    Pipeline.run [errStage] PipelineContext.default .none =
      .error (.invariant "stage failed") :=
  c5_pipeline_failure_returns_error_only errStage [] PipelineContext.default .none
    (PipelineContext.default.push_info "pipeline.stage.start"
      ("starting stage " ++ errStage.id)
      |>.push_error "test.error" "forced error")
    (.invariant "stage failed") rfl

/-! ## Claim C6: resource-limit enforcement in `compile_from_ir` -/

/-- C6 amended: exceeding `max_nodes` or `max_edges` makes `compile_from_ir`
return an error — of kind `InvalidArgument` (constructed through
`SigniaError::invalid_argument`), not `ResourceLimit` — and no bundle is
produced. -/
theorem c6_limit_exceeded_invalid_argument :
    ∀ (ir : IrGraph) (req : CompileRequest), ir.validate_basic = .ok () →
      (ir.nodes.length > req.limits.max_nodes →
        compile_from_ir ir req = .error (.invalid_argument
          ("IR exceeds max_nodes (" ++ Nat.repr ir.nodes.length ++ " > " ++
            Nat.repr req.limits.max_nodes ++ ")"))) ∧
      (ir.nodes.length ≤ req.limits.max_nodes →
       ir.edges.length > req.limits.max_edges →
        compile_from_ir ir req = .error (.invalid_argument
          ("IR exceeds max_edges (" ++ Nat.repr ir.edges.length ++ " > " ++
            Nat.repr req.limits.max_edges ++ ")"))) := by
  intro ir req hv
  constructor
  · intro hn
    unfold compile_from_ir
    rw [exceptBind_ok _ _ _ hv]
    simp only []
    rw [if_pos hn]
  · intro hn he
    unfold compile_from_ir
    rw [exceptBind_ok _ _ _ hv]
    simp only []
    rw [if_neg (not_lt.mpr hn), if_pos he]

def c6Node : IrNode := ⟨"n1", "k", "t", "x", [], [], Option.none, []⟩

def c6Ir : IrGraph := ⟨[c6Node], []⟩

def c6IrEdges : IrGraph :=
  ⟨[c6Node], [⟨"e1", "ek", "et", "n1", "n1", [], Option.none, []⟩]⟩

def c6Req : CompileRequest :=
  ⟨"repo", .obj [], "1970-01-01T00:00:00Z", [], [], [], [],
   ⟨0, 0, 0, 0, 0, "deny"⟩, false, false⟩

def c6ReqEdges : CompileRequest :=
  ⟨"repo", .obj [], "1970-01-01T00:00:00Z", [], [], [], [],
   ⟨0, 0, 1, 0, 0, "deny"⟩, false, false⟩

/-- C6 counterexample: a 1-node IR against `max_nodes = 0` yields an error of
kind `InvalidArgument`, which is not the `ResourceLimit` kind the claim
names. -/
theorem c6_counterexample_kind_is_invalid_argument :
    compile_from_ir c6Ir c6Req =
      .error (.invalid_argument "IR exceeds max_nodes (1 > 0)") ∧
    (SigniaError.invalid_argument "IR exceeds max_nodes (1 > 0)").kind =
      ErrorKind.invalidArgument ∧
    ErrorKind.invalidArgument ≠ ErrorKind.resourceLimit :=
  ⟨rfl, rfl, by decide⟩

/-- Witness for C6's amended theorem: both limit branches at concrete
inputs. -/
theorem c6_limit_exceeded_invalid_argument_witness :
    compile_from_ir c6Ir c6Req =
      .error (.invalid_argument "IR exceeds max_nodes (1 > 0)") ∧
    compile_from_ir c6IrEdges c6ReqEdges =
      .error (.invalid_argument "IR exceeds max_edges (1 > 0)") :=
  ⟨(c6_limit_exceeded_invalid_argument c6Ir c6Req rfl).1 (by decide),
   (c6_limit_exceeded_invalid_argument c6IrEdges c6ReqEdges rfl).2 (by decide) (by decide)⟩

/-! ## Claim C8: workflow validation errors -/

/-- Is `pat` a prefix of `l`? -/
def isPrefixOfChars : List Char → List Char → Bool
  | [], _ => true
  | _ :: _, [] => false
  | a :: as_, b :: bs => a = b && isPrefixOfChars as_ bs

/-- Naive substring test (used to state that an error message does not carry
a given machine code). -/
def containsSub : List Char → List Char → Bool
  | [], pat => pat.isEmpty
  | h :: hs, pat => isPrefixOfChars pat (h :: hs) || containsSub hs pat

def strContains (hay pat : String) : Bool :=
  containsSub hay.data pat.data

/-- The S4 workflow with a duplicate node id. -/
def wfDupInput : Json :=
  .obj [("name", .str "demo"),
        ("nodes", .arr [.obj [("id", .str "a"), ("type", .str "x")],
                        .obj [("id", .str "a"), ("type", .str "y")]])]

/-- The S4 workflow with an invalid edge kind. -/
def wfBadKindInput : Json :=
  .obj [("name", .str "demo"),
        ("nodes", .arr [.obj [("id", .str "a"), ("type", .str "x")],
                        .obj [("id", .str "b"), ("type", .str "y")]]),
        ("edges", .arr [.obj [("from", .str "a"), ("to", .str "b"), ("kind", .str "x")]])]

/-- C8 counterexample.  Workflow validation reports these failures through
plain `anyhow` messages; neither error carries (or even mentions) the machine
codes `workflow.node.id.duplicate` / `workflow.edge.kind.invalid` the claim
names, and no `InvalidArgument` kind is attached. -/
theorem c8_counterexample_no_error_codes :
    validate_workflow wfDupInput = .error "duplicate workflow node id: a" ∧
    strContains "duplicate workflow node id: a" "workflow.node.id.duplicate" = false ∧
    validate_workflow wfBadKindInput =
      .error "workflow.edges[0].kind must be one of data|control|event" ∧
    strContains "workflow.edges[0].kind must be one of data|control|event"
      "workflow.edge.kind.invalid" = false :=
  ⟨rfl, by decide, rfl, by decide⟩

/-- A well-formed workflow node object. -/
def wfNode (id ty : String) : Json :=
  .obj [("id", .str id), ("type", .str ty)]

/-- C8 amended: on an S4-shaped workflow whose two nodes share an id,
validation fails with the message `duplicate workflow node id: <id>`; with an
edge kind outside `{data, control, event}` it fails with the message
`workflow.edges[0].kind must be one of data|control|event`. -/
theorem c8_validation_error_messages :
    (∀ (nm idv ty1 ty2 : String),
      isBlank nm = false → isBlank idv = false → isBlank ty1 = false →
      validate_workflow (.obj [("name", .str nm),
        ("nodes", .arr [wfNode idv ty1, wfNode idv ty2])]) =
        .error ("duplicate workflow node id: " ++ idv)) ∧
    (∀ (nm ida idb tya tyb kind : String),
      isBlank nm = false → isBlank ida = false → isBlank idb = false →
      isBlank tya = false → isBlank tyb = false → ida ≠ idb →
      kind ≠ "data" → kind ≠ "control" → kind ≠ "event" →
      validate_workflow (.obj [("name", .str nm),
        ("nodes", .arr [wfNode ida tya, wfNode idb tyb]),
        ("edges", .arr [.obj [("from", .str ida), ("to", .str idb),
          ("kind", .str kind)]])]) =
        .error "workflow.edges[0].kind must be one of data|control|event") := by
  constructor
  · intro nm idv ty1 ty2 hnm hid hty
    simp only [validate_workflow, wfNode, Json.asObj, Json.asArr, Json.get, lookupEntry,
      Json.asStr, Option.bind, hnm, validate_nodes, validateNodesAux, Json.isObject,
      hid, hty, bind, Except.bind, String.reduceEq, reduceIte, List.isEmpty_cons,
      Bool.false_eq_true, List.mem_singleton, List.not_mem_nil, if_false, if_true,
      reduceCtorEq]
  · intro nm ida idb tya tyb kind hnm hida hidb htya htyb hne hk1 hk2 hk3
    simp only [validate_workflow, wfNode, Json.asObj, Json.asArr, Json.get, lookupEntry,
      Json.asStr, Option.bind, hnm, validate_nodes, validateNodesAux, Json.isObject,
      hida, hidb, htya, htyb, validate_edges, collectNodeIds, validateEdgesAux,
      hne, Ne.symm hne, hk1, hk2, hk3, bind, Except.bind, String.reduceEq, reduceIte,
      List.isEmpty_cons, Bool.false_eq_true, List.mem_singleton, List.mem_cons,
      List.not_mem_nil, List.contains_cons, if_false, if_true, reduceCtorEq,
      List.elem_cons_self, or_false, false_or, and_true, not_true, not_false_iff]
    rw [if_neg (by simp), if_neg (by simp), if_pos ⟨hk1, hk2, hk3⟩]
    rfl

/-- Witness for C8's amended theorem at the S4 inputs. -/
theorem c8_validation_error_messages_witness :
    validate_workflow wfDupInput = .error "duplicate workflow node id: a" ∧
    validate_workflow wfBadKindInput =
      .error "workflow.edges[0].kind must be one of data|control|event" :=
  ⟨c8_validation_error_messages.1 "demo" "a" "x" "y" rfl rfl rfl,
   c8_validation_error_messages.2 "demo" "a" "b" "x" "y" "x" rfl rfl rfl rfl rfl
     (by decide) (by decide) (by decide) (by decide)⟩

/-! ## Claim C9: proof-root recomputation is order-invariant -/

/-- C9 amended: `recompute_proof_root_hex` sorts the stored leaves by key, so
for proofs with the same hash algorithm whose leaf lists are permutations of
one another **with pairwise-distinct keys**, the recomputed root is equal.
(With a repeated key the stable sort preserves the relative order of the
equal-key leaves, so distinct storage orders can produce distinct roots; see
the counterexample.) -/
theorem c9_recompute_root_perm_invariant :
    ∀ p q : ProofV1, p.hash_alg = q.hash_alg → p.leaves.Perm q.leaves →
      (p.leaves.map (·.key)).Nodup →
      recompute_proof_root_hex p = recompute_proof_root_hex q := by
  intro p q halg hperm hnd
  have hnd2 : (p.leaves.map fun l => l.key.data).Nodup := by
    have : (p.leaves.map fun l => l.key.data) =
        (p.leaves.map (·.key)).map String.data := by
      rw [List.map_map]; rfl
    rw [this]
    exact hnd.map fun a b h => String.toList_inj.mp h
  unfold recompute_proof_root_hex
  rw [halg, insertionSort_eq_of_perm_of_nodup_keys (fun l : LeafV1 => l.key.data) leafLe
    leafLe_iff hperm hnd2]

def c9A : ProofV1 := ⟨"v1", "sha256", "", [⟨"a", "0"⟩, ⟨"a", "1"⟩], Option.none⟩

def c9B : ProofV1 := ⟨"v1", "sha256", "", [⟨"a", "1"⟩, ⟨"a", "0"⟩], Option.none⟩

set_option maxRecDepth 20000 in
/-- C9 counterexample: two storage orders of the same leaf multiset — with a
repeated key — recompute to different roots, so the recomputed root is not
invariant under every permutation of `proof.leaves`. -/
theorem c9_counterexample_duplicate_key :
    c9A.leaves.Perm c9B.leaves ∧ c9A.hash_alg = c9B.hash_alg ∧
    recompute_proof_root_hex c9A =
      .ok "f58a39c3686c8ce96e7541106928b94802e1e3a3aa6ae37b8246d80c2640dc5a" ∧
    recompute_proof_root_hex c9B =
      .ok "1f8f11b8402b03ead75f63ae0fff71caa7263501cabcb11bc306da996143635f" ∧
    ("f58a39c3686c8ce96e7541106928b94802e1e3a3aa6ae37b8246d80c2640dc5a" : String) ≠
      "1f8f11b8402b03ead75f63ae0fff71caa7263501cabcb11bc306da996143635f" :=
  ⟨by decide, rfl, by rfl, by rfl, by decide⟩

def c9C : ProofV1 := ⟨"v1", "sha256", "", [⟨"a", "0"⟩, ⟨"b", "1"⟩], Option.none⟩

def c9D : ProofV1 := ⟨"v1", "sha256", "", [⟨"b", "1"⟩, ⟨"a", "0"⟩], Option.none⟩

/-- Witness for C9's amended theorem: distinct keys, permuted storage. -/
theorem c9_recompute_root_perm_invariant_witness :
    recompute_proof_root_hex c9C = recompute_proof_root_hex c9D :=
  c9_recompute_root_perm_invariant c9C c9D rfl (by decide) (by decide)

/-! ## Claim C7: dataset fingerprint -/

/-- Inversion of a successful `mapM` step. -/
theorem mapM_cons_ok {ε α β : Type} (f : α → Except ε β) {a : α} {l : List α}
    {r : List β} (h : (a :: l).mapM f = .ok r) :
    ∃ y rs, f a = .ok y ∧ l.mapM f = .ok rs ∧ r = y :: rs := by
  rw [List.mapM_cons] at h
  cases hfa : f a with
  | error e => rw [hfa] at h; simp [bind, Except.bind] at h
  | ok y =>
    rw [hfa] at h
    simp only [bind, Except.bind] at h
    cases hml : l.mapM f with
    | error e => rw [hml] at h; simp at h
    | ok rs =>
      rw [hml] at h
      simp only [pure, Except.pure, Except.ok.injEq] at h
      exact ⟨y, rs, rfl, rfl, h.symm⟩

/-- Forward construction of a successful `mapM` step. -/
theorem mapM_cons_ok_build {ε α β : Type} (f : α → Except ε β) {a : α} {l : List α}
    {y : β} {rs : List β} (hfa : f a = .ok y) (hml : l.mapM f = .ok rs) :
    (a :: l).mapM f = .ok (y :: rs) := by
  rw [List.mapM_cons, hfa]
  simp only [bind, Except.bind, hml, pure, Except.pure]

/-- Success of `mapM` transports along permutations of the input, with
permuted output. -/
theorem mapM_ok_perm {ε α β : Type} (f : α → Except ε β) :
    ∀ {l1 l2 : List α}, l1.Perm l2 →
      ∀ {r1 : List β}, l1.mapM f = .ok r1 →
        ∃ r2, l2.mapM f = .ok r2 ∧ r1.Perm r2 := by
  intro l1 l2 hp
  induction hp with
  | nil =>
    intro r1 h1
    exact ⟨r1, h1, List.Perm.refl r1⟩
  | cons a hp ih =>
    intro r1 h1
    obtain ⟨y, rs, hfa, hml, hr⟩ := mapM_cons_ok f h1
    obtain ⟨rs2, hrs2, hperm2⟩ := ih hml
    exact ⟨y :: rs2, mapM_cons_ok_build f hfa hrs2, hr ▸ List.Perm.cons y hperm2⟩
  | swap a b l =>
    intro r1 h1
    obtain ⟨yb, rs1, hfb, hml1, hr1⟩ := mapM_cons_ok f h1
    obtain ⟨ya, rs, hfa, hml, hr⟩ := mapM_cons_ok f hml1
    refine ⟨ya :: yb :: rs, ?_, ?_⟩
    · exact mapM_cons_ok_build f hfa (mapM_cons_ok_build f hfb hml)
    · rw [hr1, hr]
      exact List.Perm.swap ya yb rs
  | trans hp12 hp23 ih12 ih23 =>
    intro r1 h1
    obtain ⟨r2, h2, hperm12⟩ := ih12 h1
    obtain ⟨r3, h3, hperm23⟩ := ih23 h2
    exact ⟨r3, h3, hperm12.trans hperm23⟩

theorem recLe_iff (a b : DatasetFileRecord) : recLe a b ↔ a.path.data ≤ b.path.data :=
  strLtB_eq_false_iff a.path b.path

instance : IsTotal DatasetFileRecord recLe :=
  ⟨fun a b => by
    rcases le_total a.path.data b.path.data with h | h
    · exact Or.inl ((recLe_iff a b).mpr h)
    · exact Or.inr ((recLe_iff b a).mpr h)⟩

instance : IsTrans DatasetFileRecord recLe :=
  ⟨fun a b c hab hbc => (recLe_iff a c).mpr
    (le_trans ((recLe_iff a b).mp hab) ((recLe_iff b c).mp hbc))⟩

/-- C7.  When every record normalizes and hashes successfully, the
fingerprint is the SHA-256 hex of the `path\tsize\tsha256\n` lines of the
normalized records sorted ascending by path; and — amended — it is invariant
under permutation of the input list **provided the normalized paths are
pairwise distinct** (the counterexample shows a repeated path breaks
invariance). -/
theorem c7_dataset_fingerprint :
    (∀ (files : List DatasetFileRecord) (recs : List DatasetFileRecord),
      files.mapM (fun f => do
        let p ← normalize_repo_path f.path
        ensure_file_sha256 { f with path := p }) = .ok recs →
      dataset_fingerprint files =
        .ok (hash_bytes_hex ((recs.insertionSort recLe).foldr
          (fun f acc => recordLine f ++ acc) []))) ∧
    (∀ (files1 files2 recs1 : List DatasetFileRecord),
      files1.Perm files2 →
      files1.mapM (fun f => do
        let p ← normalize_repo_path f.path
        ensure_file_sha256 { f with path := p }) = .ok recs1 →
      (recs1.map (·.path)).Nodup →
      dataset_fingerprint files1 = dataset_fingerprint files2) := by
  constructor
  · intro files recs h
    unfold dataset_fingerprint
    rw [h]
    rfl
  · intro files1 files2 recs1 hp h1 hnd
    obtain ⟨recs2, h2, hperm⟩ := mapM_ok_perm _ hp h1
    unfold dataset_fingerprint
    rw [h1, h2]
    simp only [bind, Except.bind]
    have hnd2 : (recs1.map fun r => r.path.data).Nodup := by
      have : (recs1.map fun r => r.path.data) =
          (recs1.map (·.path)).map String.data := by
        rw [List.map_map]; rfl
      rw [this]
      exact hnd.map fun a b h => String.toList_inj.mp h
    rw [insertionSort_eq_of_perm_of_nodup_keys (fun r : DatasetFileRecord => r.path.data) recLe
      recLe_iff hperm hnd2]

def c7R1 : DatasetFileRecord := ⟨"a", 0, some [120], Option.none⟩

def c7R2 : DatasetFileRecord := ⟨"a", 0, some [121], Option.none⟩

set_option maxRecDepth 20000 in
/-- C7 counterexample: two records with the same path but different bytes —
the stable sort keeps their input order, so the two permutations of the same
record multiset yield different fingerprints. -/
theorem c7_counterexample_duplicate_path :
    ([c7R1, c7R2] : List DatasetFileRecord).Perm [c7R2, c7R1] ∧
    dataset_fingerprint [c7R1, c7R2] =
      .ok "fe098e0c22d120176625b830f696d7610175090d09610bee6d4ec8b40ebbc84c" ∧
    dataset_fingerprint [c7R2, c7R1] =
      .ok "13131f0c812631a74f3d7eb6c58f900e96bc382ce72252c42021fc6961c62893" ∧
    ("fe098e0c22d120176625b830f696d7610175090d09610bee6d4ec8b40ebbc84c" : String) ≠
      "13131f0c812631a74f3d7eb6c58f900e96bc382ce72252c42021fc6961c62893" :=
  ⟨by decide, by rfl, by rfl, by decide⟩

def c7S1 : DatasetFileRecord := ⟨"x", 0, some [120], Option.none⟩

def c7S2 : DatasetFileRecord := ⟨"y", 0, some [121], Option.none⟩

/-- Witness for C7: the S3 dataset — fingerprint formula and permutation
invariance at distinct paths. -/
theorem c7_dataset_fingerprint_witness :
    dataset_fingerprint [c7S1, c7S2] =
      .ok (hash_bytes_hex ((([⟨"x", 1, some [120], some (hash_bytes_hex [120])⟩,
        ⟨"y", 1, some [121], some (hash_bytes_hex [121])⟩] :
          List DatasetFileRecord).insertionSort recLe).foldr
        (fun f acc => recordLine f ++ acc) [])) ∧
    dataset_fingerprint [c7S1, c7S2] = dataset_fingerprint [c7S2, c7S1] :=
  ⟨c7_dataset_fingerprint.1 [c7S1, c7S2] _ rfl,
   c7_dataset_fingerprint.2 [c7S1, c7S2] [c7S2, c7S1] _ (by decide) rfl (by decide)⟩

/-! ## Claim C4: inclusion-proof verification -/

/-- The fold described by the claim/spec: starting from the leaf hash,
combine each sibling, placing it first when its side is `left` and second
when its side is `right`. -/
def specInclusionFold (alg : String) : String → List SiblingV1 → SigniaResult String
  | h, [] => .ok h
  | h, s :: rest => do
    let h' ← if s.side = "left" then hash_merkle_node_hex alg s.hash h
      else hash_merkle_node_hex alg h s.hash
    specInclusionFold alg h' rest

/-- The claim's fold applied from the leaf hash of payload `<key>=<value>`. -/
def specInclusionRoot (p : ProofV1) (inc : InclusionProofV1) : SigniaResult String := do
  let h0 ← hash_merkle_leaf_hex p.hash_alg (utf8 (inc.key ++ "=" ++ inc.value))
  specInclusionFold p.hash_alg h0 inc.siblings

/-- With every side valid, the code's sibling loop is the claim's fold. -/
theorem inclFold_eq_spec (alg : String) :
    ∀ (sibs : List SiblingV1) (h : String),
      (sibs.all fun s => s.side = "left" ∨ s.side = "right") = true →
      inclFold alg h sibs = specInclusionFold alg h sibs := by
  intro sibs
  induction sibs with
  | nil => intro h _; rfl
  | cons s rest ih =>
    intro h hall
    simp only [List.all_cons, Bool.and_eq_true, decide_eq_true_eq] at hall
    obtain ⟨hside, htl⟩ := hall
    unfold inclFold specInclusionFold
    have hvalid : ¬(s.side ≠ "left" ∧ s.side ≠ "right") := by
      rcases hside with h1 | h1 <;> simp [h1]
    rw [if_neg hvalid]
    simp only [bind, Except.bind]
    by_cases hl : s.side = "left"
    · rw [if_pos hl, if_pos hl]
      cases hash_merkle_node_hex alg s.hash h with
      | error e => rfl
      | ok h' => exact ih h' htl
    · rw [if_neg hl, if_neg hl]
      cases hash_merkle_node_hex alg h s.hash with
      | error e => rfl
      | ok h' => exact ih h' htl

/-- C4.  For an inclusion proof whose `(key, value)` appears among the
proof's leaves and whose sibling sides are all `left`/`right`,
`verify_inclusion` returns `Ok` exactly when the claim's fold from the leaf
hash of `<key>=<value>` yields the proof's root; and when the leaf pair is
absent it returns an error. -/
theorem c4_verify_inclusion_fold :
    (∀ (p : ProofV1) (inc : InclusionProofV1),
      (p.leaves.any fun l => l.key = inc.key ∧ l.value = inc.value) = true →
      (inc.siblings.all fun s => s.side = "left" ∨ s.side = "right") = true →
      (verify_inclusion p inc = .ok () ↔
        specInclusionRoot p inc = .ok p.root)) ∧
    (∀ (p : ProofV1) (inc : InclusionProofV1),
      (p.leaves.any fun l => l.key = inc.key ∧ l.value = inc.value) = false →
      ∃ e, verify_inclusion p inc = .error e) := by
  constructor
  · intro p inc hmem hsides
    unfold verify_inclusion specInclusionRoot
    rw [hmem]
    simp only [Bool.not_true, Bool.false_eq_true, if_false, bind, Except.bind]
    cases hleaf : hash_merkle_leaf_hex p.hash_alg (utf8 (inc.key ++ "=" ++ inc.value)) with
    | error e => simp
    | ok h0 =>
      simp only []
      rw [inclFold_eq_spec p.hash_alg inc.siblings h0 hsides]
      cases hfold : specInclusionFold p.hash_alg h0 inc.siblings with
      | error e => simp
      | ok hr =>
        simp only []
        by_cases hroot : hr = p.root
        · subst hroot
          simp
        · rw [if_pos hroot]
          constructor
          · intro hc; exact absurd hc (by simp)
          · intro hc
            exact absurd (Except.ok.inj hc) hroot
  · intro p inc hmem
    unfold verify_inclusion
    rw [hmem]
    exact ⟨.invalid_argument "inclusion leaf not present in proof", rfl⟩

def c4Proof : ProofV1 := ⟨"v1", "sha256", "r", [⟨"a", "0"⟩, ⟨"b", "1"⟩], Option.none⟩

def c4Inc : InclusionProofV1 := ⟨"a", "0", [⟨"right", "00"⟩]⟩

def c4IncBad : InclusionProofV1 := ⟨"zz", "0", []⟩

/-- Witness for C4 at a concrete proof: present leaf with valid sides, and an
absent leaf. -/
theorem c4_verify_inclusion_fold_witness :
    (verify_inclusion c4Proof c4Inc = .ok () ↔
      specInclusionRoot c4Proof c4Inc = .ok c4Proof.root) ∧
    (∃ e, verify_inclusion c4Proof c4IncBad = .error e) :=
  ⟨c4_verify_inclusion_fold.1 c4Proof c4Inc rfl rfl,
   c4_verify_inclusion_fold.2 c4Proof c4IncBad rfl⟩

/-! ## Claim C2: proof leaves emitted by `compile_from_ir` -/

/-- Inversion of a successful `Except` bind. -/
theorem exceptBind_ok_inv {ε α β : Type} {x : Except ε α} {f : α → Except ε β} {r : β}
    (h : (x >>= f) = .ok r) : ∃ u, x = .ok u ∧ f u = .ok r := by
  cases hx : x with
  | error e =>
    rw [exceptBind_error _ _ _ hx] at h
    exact absurd h (by simp)
  | ok u =>
    rw [exceptBind_ok _ _ _ hx] at h
    exact ⟨u, rfl, h⟩

/-- The Merkle root over a list of raw leaf payloads, exactly as both
`compile_from_ir` and `recompute_proof_root_hex` build it. -/
def merkleRootOfPayloads (alg : String) (payloads : List (List Nat)) :
    SigniaResult String :=
  (payloads.foldlM (fun t p => t.push_leaf p)
    (MerkleTree.new ⟨alg, domainMERKLE_LEAF, domainMERKLE_NODE⟩)) >>= MerkleTree.root_hex

/-- Pushing leaves equals pushing their payloads. -/
theorem foldlM_push_map (ls : List LeafV1) :
    ∀ t : MerkleTree,
      ls.foldlM (fun t l => t.push_leaf (leafPayload l)) t =
        (ls.map leafPayload).foldlM (fun t p => t.push_leaf p) t := by
  induction ls with
  | nil => intro t; rfl
  | cons l rest ih =>
    intro t
    rw [List.foldlM_cons, List.map_cons, List.foldlM_cons]
    cases t.push_leaf (leafPayload l) with
    | error e => rfl
    | ok t' =>
      simp only [bind, Except.bind]
      exact ih t'

/-- Sorting the four compile leaves (concrete keys, arbitrary values). -/
theorem sortLeaves_concrete (v1 v2 v3 v4 : String) :
    ([⟨"digest:schemaHash", v1⟩, ⟨"digest:manifestHash", v2⟩,
      ⟨"meta:kind", v3⟩, ⟨"meta:createdAt", v4⟩] : List LeafV1).insertionSort leafLe =
    [⟨"digest:manifestHash", v2⟩, ⟨"digest:schemaHash", v1⟩,
     ⟨"meta:createdAt", v4⟩, ⟨"meta:kind", v3⟩] := by
  have h1 : strLtB "meta:createdAt" "meta:kind" = true := by decide
  have h2 : strLtB "meta:createdAt" "digest:manifestHash" = false := by decide
  have h3 : strLtB "digest:manifestHash" "digest:schemaHash" = true := by decide
  have h4 : strLtB "meta:createdAt" "digest:schemaHash" = false := by decide
  simp [List.insertionSort, List.orderedInsert, leafLe, h1, h2, h3, h4]

/-- C2.  A successful compile with `build_proof` emits exactly the four
leaves, sorted ascending by key — the digest leaves carrying the canonical
hashes of manifest and schema, the meta leaves carrying `hash_hex` of
`created_at` and `kind` — and the proof root is the Merkle root over the
`<key>=<value>` payloads of those leaves. -/
theorem c2_compile_proof_leaves :
    ∀ (ir : IrGraph) (req : CompileRequest) (rep : CompileReport),
      compile_from_ir ir req = .ok rep → req.build_proof = true →
      ∃ (p : ProofV1) (sh mh : String),
        rep.bundle.proof = some p ∧
        hash_schema_v1_hex rep.bundle.schema = .ok sh ∧
        hash_manifest_v1_hex rep.bundle.manifest = .ok mh ∧
        p.leaves = [⟨"digest:manifestHash", mh⟩, ⟨"digest:schemaHash", sh⟩,
          ⟨"meta:createdAt", hash_bytes_hex (utf8 req.created_at)⟩,
          ⟨"meta:kind", hash_bytes_hex (utf8 req.kind)⟩] ∧
        merkleRootOfPayloads "sha256" (p.leaves.map leafPayload) = .ok p.root := by
  intro ir req rep hc hb
  unfold compile_from_ir at hc
  obtain ⟨u, hv, hc⟩ := exceptBind_ok_inv hc
  split at hc
  · exact absurd hc (by simp)
  · split at hc
    · exact absurd hc (by simp)
    · obtain ⟨rd, hrun, hc⟩ := exceptBind_ok_inv hc
      obtain ⟨schema, hout, hc⟩ := exceptBind_ok_inv hc
      obtain ⟨sh, hsh, hc⟩ := exceptBind_ok_inv hc
      obtain ⟨mh, hmh, hc⟩ := exceptBind_ok_inv hc
      obtain ⟨prf, hps, hc⟩ := exceptBind_ok_inv hc
      rw [hb] at hps
      unfold buildProofOpt at hps
      rw [if_pos rfl] at hps
      simp only [] at hps
      rw [sortLeaves_concrete] at hps
      obtain ⟨tree1, hfold, hps⟩ := exceptBind_ok_inv hps
      obtain ⟨root, hroot, hps⟩ := exceptBind_ok_inv hps
      have hprf := (Except.ok.inj hps).symm
      have hrep := (Except.ok.inj hc).symm
      subst hprf
      subst hrep
      refine ⟨_, sh, mh, rfl, hsh, hmh, rfl, ?_⟩
      show merkleRootOfPayloads "sha256" (List.map leafPayload
        [⟨"digest:manifestHash", mh⟩, ⟨"digest:schemaHash", sh⟩,
         ⟨"meta:createdAt", hash_bytes_hex (utf8 req.created_at)⟩,
         ⟨"meta:kind", hash_bytes_hex (utf8 req.kind)⟩]) = Except.ok root
      unfold merkleRootOfPayloads
      rw [← foldlM_push_map]
      rw [exceptBind_ok _ _ _ hfold]
      exact hroot

def c2Ir : IrGraph := ⟨[], []⟩

def c2Req : CompileRequest :=
  ⟨"repo", .obj [], "1970-01-01T00:00:00Z", [], [], [], [],
   ⟨0, 0, 8, 8, 0, "deny"⟩, false, true⟩

set_option maxRecDepth 40000 in
set_option maxHeartbeats 2000000 in
/-- C2 witness: a concrete request with `build_proof` set compiles, and the
emitted proof carries exactly the four sorted leaves. -/
theorem c2_compile_proof_leaves_witness :
    ∃ (rep : CompileReport), compile_from_ir c2Ir c2Req = Except.ok rep ∧
      ∃ (p : ProofV1) (sh mh : String),
        rep.bundle.proof = some p ∧
        hash_schema_v1_hex rep.bundle.schema = .ok sh ∧
        hash_manifest_v1_hex rep.bundle.manifest = .ok mh ∧
        p.leaves = [⟨"digest:manifestHash", mh⟩, ⟨"digest:schemaHash", sh⟩,
          ⟨"meta:createdAt", hash_bytes_hex (utf8 c2Req.created_at)⟩,
          ⟨"meta:kind", hash_bytes_hex (utf8 c2Req.kind)⟩] ∧
        merkleRootOfPayloads "sha256" (p.leaves.map leafPayload) = .ok p.root := by
  obtain ⟨rep, hrep⟩ : ∃ rep, compile_from_ir c2Ir c2Req = Except.ok rep := ⟨_, rfl⟩
  exact ⟨rep, hrep, c2_compile_proof_leaves c2Ir c2Req rep hrep rfl⟩

/-! ## Claim C1: verify inverts compile

The entity ids emitted by the default id strategy are `n<ordinal>`; showing
the verifier accepts them requires that distinct ordinals give distinct ids,
i.e. that the decimal rendering `Nat.repr` is injective.  The rendering is
characterized by a structural fuelled digit-string function. -/

/-- Structural decimal digit string of `n` (fuelled; correct for `n < f`). -/
def dstr : Nat → Nat → List Char
  | 0, _ => []
  | f + 1, n =>
    if n < 10 then [Nat.digitChar n]
    else dstr f (n / 10) ++ [Nat.digitChar (n % 10)]

theorem toDigitsCore_eq_dstr :
    ∀ (f n : Nat) (acc : List Char), n < f →
      Nat.toDigitsCore 10 f n acc = dstr f n ++ acc := by
  intro f
  induction f with
  | zero => intro n acc h; exact absurd h (Nat.not_lt_zero n)
  | succ f ih =>
    intro n acc h
    by_cases h10 : n < 10
    · have hz : n / 10 = 0 := Nat.div_eq_of_lt h10
      simp only [Nat.toDigitsCore, dstr, if_pos h10, hz, if_pos rfl]
      rw [Nat.mod_eq_of_lt h10]
      rfl
    · have hnz : ¬ n / 10 = 0 := by omega
      have hlt : n / 10 < f := by omega
      simp only [Nat.toDigitsCore, dstr, if_neg h10, if_neg hnz]
      rw [ih (n / 10) (Nat.digitChar (n % 10) :: acc) hlt, List.append_assoc]
      rfl

/-- Decimal value of a digit string. -/
def valDigits (l : List Char) : Nat :=
  l.foldl (fun a c => 10 * a + (c.toNat - 48)) 0

theorem digitChar_val : ∀ d : Nat, d < 10 → (Nat.digitChar d).toNat - 48 = d := by
  intro d hd
  interval_cases d <;> rfl

theorem valDigits_dstr : ∀ (f n : Nat), n < f → valDigits (dstr f n) = n := by
  intro f
  induction f with
  | zero => intro n h; exact absurd h (Nat.not_lt_zero n)
  | succ f ih =>
    intro n h
    by_cases h10 : n < 10
    · simp only [dstr, if_pos h10, valDigits, List.foldl]
      rw [Nat.mul_zero, Nat.zero_add]
      exact digitChar_val n h10
    · have hlt : n / 10 < f := by omega
      simp only [dstr, if_neg h10, valDigits, List.foldl_append, List.foldl]
      have hv := ih (n / 10) hlt
      unfold valDigits at hv
      rw [hv, digitChar_val (n % 10) (Nat.mod_lt n (by omega))]
      omega

theorem natRepr_dstr (n : Nat) : Nat.repr n = String.mk (dstr (n + 1) n) := by
  unfold Nat.repr Nat.toDigits
  rw [toDigitsCore_eq_dstr (n + 1) n [] (Nat.lt_succ_self n), List.append_nil]
  rfl

theorem natRepr_data_inj {m n : Nat} (h : (Nat.repr m).data = (Nat.repr n).data) :
    m = n := by
  rw [natRepr_dstr, natRepr_dstr] at h
  calc m = valDigits (dstr (m + 1) m) := (valDigits_dstr _ _ (Nat.lt_succ_self m)).symm
    _ = valDigits (dstr (n + 1) n) := by
          rw [show dstr (m + 1) m = dstr (n + 1) n from h]
    _ = n := valDigits_dstr _ _ (Nat.lt_succ_self n)

theorem strData_append (a b : String) : (a ++ b).data = a.data ++ b.data := by
  cases a
  cases b
  rfl

theorem entityIdFor_inj {i j : Nat} (h : entityIdFor i = entityIdFor j) : i = j := by
  unfold entityIdFor at h
  have hd := congrArg String.data h
  rw [strData_append, strData_append] at hd
  simp only [List.singleton_append] at hd
  injection hd with _ hd2
  exact natRepr_data_inj hd2

theorem isBlank_append_n (s : String) : isBlank ("n" ++ s) = false := by
  cases s
  rfl

theorem isBlank_append_e (s : String) : isBlank ("e" ++ s) = false := by
  cases s
  rfl

theorem isBlank_entityIdFor (i : Nat) : isBlank (entityIdFor i) = false :=
  isBlank_append_n (Nat.repr i)

theorem mem_enumFrom_snd {α : Type} :
    ∀ (l : List α) (n : Nat) (p : Nat × α), p ∈ l.enumFrom n → p.2 ∈ l := by
  intro l
  induction l with
  | nil => intro n p h; exact absurd h (List.not_mem_nil p)
  | cons a t ih =>
    intro n p h
    rcases List.mem_cons.mp h with h1 | h2
    · rw [h1]
      exact List.mem_cons_self a t
    · exact List.mem_cons_of_mem a (ih (n + 1) p h2)

theorem mem_enum_snd {α : Type} (l : List α) (p : Nat × α) (h : p ∈ l.enum) :
    p.2 ∈ l :=
  mem_enumFrom_snd l 0 p h

theorem idxOfNode_lt_length :
    ∀ (l : List IrNode) (x : String) (i : Nat),
      idxOfNode l x = some i → i < l.length := by
  intro l
  induction l with
  | nil => intro x i h; exact absurd h (by simp [idxOfNode])
  | cons n t ih =>
    intro x i h
    unfold idxOfNode at h
    split at h
    · rw [← Option.some.inj h]
      exact Nat.succ_pos t.length
    · rcases Option.map_eq_some'.mp h with ⟨j, hj, hij⟩
      have := ih x j hj
      rw [← hij, List.length_cons]
      omega

theorem idxOfNode_of_mem :
    ∀ (l : List IrNode) (x : String), x ∈ l.map (fun n => n.id) →
      ∃ i, idxOfNode l x = some i := by
  intro l
  induction l with
  | nil => intro x h; exact absurd h (List.not_mem_nil x)
  | cons n t ih =>
    intro x h
    by_cases hn : n.id = x
    · exact ⟨0, by unfold idxOfNode; rw [if_pos hn]⟩
    · rcases List.mem_cons.mp h with h1 | h2
      · exact absurd h1.symm hn
      · obtain ⟨j, hj⟩ := ih x h2
        exact ⟨j + 1, by unfold idxOfNode; rw [if_neg hn, hj]; rfl⟩

theorem mapM_ok_of_all {ε α β : Type} (f : α → Except ε β) :
    ∀ (l : List α), (∀ x ∈ l, ∃ y, f x = .ok y) → ∃ ys, l.mapM f = .ok ys := by
  intro l
  induction l with
  | nil => intro _; exact ⟨[], by rw [List.mapM_nil]; rfl⟩
  | cons a t ih =>
    intro h
    obtain ⟨y, hy⟩ := h a (List.mem_cons_self a t)
    obtain ⟨ys, hys⟩ := ih fun x hx => h x (List.mem_cons_of_mem a hx)
    exact ⟨y :: ys, mapM_cons_ok_build f hy hys⟩

theorem mapM_ok_mem {ε α β : Type} (f : α → Except ε β) :
    ∀ (l : List α) (ys : List β), l.mapM f = .ok ys →
      ∀ y ∈ ys, ∃ x ∈ l, f x = .ok y := by
  intro l
  induction l with
  | nil =>
    intro ys h y hy
    rw [List.mapM_nil] at h
    have : ([] : List β) = ys := Except.ok.inj h
    rw [← this] at hy
    exact absurd hy (List.not_mem_nil y)
  | cons a t ih =>
    intro ys h y hy
    obtain ⟨z, rs, hfa, hml, hys⟩ := mapM_cons_ok f h
    subst hys
    rcases List.mem_cons.mp hy with h1 | h2
    · exact ⟨a, List.mem_cons_self a t, h1 ▸ hfa⟩
    · obtain ⟨x, hx, hfx⟩ := ih rs hml y h2
      exact ⟨x, List.mem_cons_of_mem a hx, hfx⟩

theorem contains_of_mem {l : List String} {a : String} (h : a ∈ l) :
    l.contains a = true :=
  List.elem_eq_true_of_mem h

/-- The per-entity verifier checks produce no findings when ids are nonblank
and pairwise distinct (and fresh for `seen`) and types are nonblank. -/
theorem entityFindings_nil :
    ∀ (es : List EntityV1) (seen : List String),
      (∀ e ∈ es, isBlank e.id = false) →
      (∀ e ∈ es, isBlank e.type = false) →
      (es.map fun e => e.id).Nodup →
      (∀ e ∈ es, e.id ∉ seen) →
      entityFindings seen es = [] := by
  intro es
  induction es with
  | nil => intro seen _ _ _ _; rfl
  | cons e t ih =>
    intro seen hid hty hnd hseen
    have h1 := hid e (List.mem_cons_self e t)
    have h2 := hty e (List.mem_cons_self e t)
    have h3 := hseen e (List.mem_cons_self e t)
    rw [List.map_cons, List.nodup_cons] at hnd
    unfold entityFindings
    rw [if_neg (by simp [h1]), if_neg h3, if_neg (by simp [h2])]
    simp only [List.nil_append]
    refine ih (e.id :: seen) (fun x hx => hid x (List.mem_cons_of_mem e hx))
      (fun x hx => hty x (List.mem_cons_of_mem e hx)) hnd.2 ?_
    intro x hx hmem
    rcases List.mem_cons.mp hmem with h' | h'
    · exact hnd.1 (h' ▸ List.mem_map_of_mem (fun e => e.id) hx)
    · exact hseen x (List.mem_cons_of_mem e hx) h'

/-- The per-edge verifier checks produce no findings when refs are nonblank
and point at known entity ids. -/
theorem edgeFindings_nil (ids : List String) :
    ∀ es : List EdgeV1,
      (∀ e ∈ es, isBlank e.fromId = false ∧ isBlank e.toId = false ∧
        e.fromId ∈ ids ∧ e.toId ∈ ids) →
      edgeFindings ids es = [] := by
  intro es
  induction es with
  | nil => intro _; rfl
  | cons e t ih =>
    intro h
    obtain ⟨hf, ht, hfm, htm⟩ := h e (List.mem_cons_self e t)
    unfold edgeFindings
    rw [if_neg (by simp [hf, ht]), if_pos (contains_of_mem hfm),
      if_pos (contains_of_mem htm)]
    simp only [List.nil_append]
    exact ih fun x hx => h x (List.mem_cons_of_mem e hx)

/-- What a successful basic validation says: unique node ids and resolvable
edge endpoints. -/
theorem validate_basic_inv (g : IrGraph) (h : g.validate_basic = .ok ()) :
    hasDup (g.nodes.map fun n => n.id) = false ∧
      ∀ e ∈ g.edges, e.fromId ∈ g.nodes.map (fun n => n.id) ∧
        e.toId ∈ g.nodes.map (fun n => n.id) := by
  unfold IrGraph.validate_basic at h
  simp only [] at h
  split at h
  · exact absurd h (by simp)
  · split at h
    · exact absurd h (by simp)
    · split at h
      · exact absurd h (by simp)
      · rename_i hdup hedup hany
        refine ⟨by simpa using hdup, ?_⟩
        intro e he
        have hany' : g.edges.any (fun e =>
            !((g.nodes.map fun n => n.id).contains e.fromId &&
              (g.nodes.map fun n => n.id).contains e.toId)) = false := by
          simpa using hany
        have := List.any_eq_false.mp hany' e he
        simp only [Bool.not_eq_true', Bool.not_eq_false, Bool.and_eq_true] at this
        exact ⟨(List.mem_of_elem_eq_true this.1), (List.mem_of_elem_eq_true this.2)⟩

theorem emitEdge_ok_inv (sorted : List IrNode) (p : Nat × IrEdge) (y : EdgeV1)
    (h : emitEdge sorted p = .ok y) :
    ∃ fi ti, y = EdgeV1.mk (edgeIdFor p.1) p.2.edge_type (entityIdFor fi) (entityIdFor ti) ∧
      fi < sorted.length ∧ ti < sorted.length := by
  unfold emitEdge at h
  cases hfi : idxOfNode sorted p.2.fromId with
  | none => rw [hfi] at h; exact absurd h (by simp [bind, Except.bind])
  | some fi =>
    rw [hfi] at h
    cases hti : idxOfNode sorted p.2.toId with
    | none => rw [hti] at h; exact absurd h (by simp [bind, Except.bind])
    | some ti =>
      rw [hti] at h
      simp only [bind, Except.bind] at h
      exact ⟨fi, ti, (Except.ok.inj h).symm,
        idxOfNode_lt_length sorted p.2.fromId fi hfi,
        idxOfNode_lt_length sorted p.2.toId ti hti⟩

/-- Successful basic validation guarantees schema emission succeeds, with the
emitted entities the sorted `enum` rendering and every emitted edge an
`e<i>` edge between existing entity ids. -/
theorem emit_schema_ok (g : IrGraph) (kind : String) (meta : Json)
    (hvb : g.validate_basic = .ok ()) :
    ∃ edges : List EdgeV1,
      g.emit_schema_v1 kind meta = .ok ⟨"v1", kind, meta,
        ((g.nodes.insertionSort nodeLe).enum.map fun p =>
          EntityV1.mk (entityIdFor p.1) p.2.node_type p.2.name), edges⟩ ∧
      ∀ e ∈ edges, ∃ (i : Nat) (t : String) (fi ti : Nat),
        e = EdgeV1.mk (edgeIdFor i) t (entityIdFor fi) (entityIdFor ti) ∧
        fi < g.nodes.length ∧ ti < g.nodes.length := by
  obtain ⟨-, hends⟩ := validate_basic_inv g hvb
  have hperm := List.perm_insertionSort nodeLe g.nodes
  have hpermE := List.perm_insertionSort (edgeLe g) g.edges
  have hmemid : ∀ x, x ∈ g.nodes.map (fun n => n.id) →
      x ∈ (g.nodes.insertionSort nodeLe).map fun n => n.id :=
    fun x hx => ((hperm.map fun n => n.id).mem_iff).mpr hx
  have hf : ∀ p ∈ (g.edges.insertionSort (edgeLe g)).enum,
      ∃ y, emitEdge (g.nodes.insertionSort nodeLe) p = .ok y := by
    intro p hp
    have he : p.2 ∈ g.edges := hpermE.mem_iff.mp (mem_enum_snd _ p hp)
    obtain ⟨hfm, htm⟩ := hends p.2 he
    obtain ⟨fi, hfi⟩ := idxOfNode_of_mem _ _ (hmemid _ hfm)
    obtain ⟨ti, hti⟩ := idxOfNode_of_mem _ _ (hmemid _ htm)
    refine ⟨EdgeV1.mk (edgeIdFor p.1) p.2.edge_type (entityIdFor fi) (entityIdFor ti), ?_⟩
    unfold emitEdge
    rw [hfi, hti]
    rfl
  obtain ⟨edges, hmapM⟩ := mapM_ok_of_all _ _ hf
  refine ⟨edges, ?_, ?_⟩
  · unfold IrGraph.emit_schema_v1
    simp only []
    rw [exceptBind_ok _ _ _ hmapM]
  · intro e he
    obtain ⟨x, _, hfx⟩ := mapM_ok_mem _ _ _ hmapM e he
    obtain ⟨fi, ti, hy, hfi, hti⟩ := emitEdge_ok_inv _ _ _ hfx
    rw [hperm.length_eq] at hfi hti
    exact ⟨x.1, x.2.edge_type, fi, ti, hy, hfi, hti⟩

/-- Running the compile stage list on a valid IR reaches the emission stage
and outputs exactly the emitted schema. -/
theorem compileStages_run (ir : IrGraph) (req : CompileRequest) (s : SchemaV1)
    (hvb : ir.validate_basic = .ok ())
    (hemit : ir.emit_schema_v1 req.kind req.meta = .ok s) :
    (Pipeline.run compileStages (compileCtx req) (.ir ir)).map (fun r => r.output) =
      .ok (.schemaV1 s) := by
  unfold Pipeline.run compileStages
  simp only [pipelineGo, ValidateIrStage, NormalizeIrStage, EmitSchemaV1Stage,
    PipelineContext.push_info, PipelineContext.get_param, PipelineContext.get_json_param,
    compileCtx, PipelineContext.set_param, PipelineContext.set_json_param,
    PipelineContext.default, assocSet, lookupEntry, metaFromCtx, hvb, hemit,
    String.reduceEq, reduceIte]
  rfl

/-- Full inversion of a successful `compile_from_ir` with `build_proof`:
the bundle's schema is the emission of the request's kind and meta over the
sorted IR, the manifest binds the schema digest, and the proof carries the
four sorted leaves with the Merkle artifacts of their payloads. -/
theorem compile_ok_inv (ir : IrGraph) (req : CompileRequest) (rep : CompileReport)
    (hc : compile_from_ir ir req = .ok rep) (hb : req.build_proof = true) :
    ∃ (edges : List EdgeV1) (sh mh : String) (tree1 : MerkleTree) (root : String),
      ir.validate_basic = .ok () ∧
      (∀ e ∈ edges, ∃ (i : Nat) (t : String) (fi ti : Nat),
        e = EdgeV1.mk (edgeIdFor i) t (entityIdFor fi) (entityIdFor ti) ∧
        fi < ir.nodes.length ∧ ti < ir.nodes.length) ∧
      rep.bundle.schema = ⟨"v1", req.kind, req.meta,
        ((ir.nodes.insertionSort nodeLe).enum.map fun p =>
          EntityV1.mk (entityIdFor p.1) p.2.node_type p.2.name), edges⟩ ∧
      hash_schema_v1_hex rep.bundle.schema = .ok sh ∧
      rep.bundle.manifest = req.to_manifest_v1 (some sh) ∧
      hash_manifest_v1_hex rep.bundle.manifest = .ok mh ∧
      rep.bundle.proof = some ⟨"v1", "sha256", root,
        [⟨"digest:manifestHash", mh⟩, ⟨"digest:schemaHash", sh⟩,
         ⟨"meta:createdAt", hash_bytes_hex (utf8 req.created_at)⟩,
         ⟨"meta:kind", hash_bytes_hex (utf8 req.kind)⟩], Option.none⟩ ∧
      ([⟨"digest:manifestHash", mh⟩, ⟨"digest:schemaHash", sh⟩,
        ⟨"meta:createdAt", hash_bytes_hex (utf8 req.created_at)⟩,
        ⟨"meta:kind", hash_bytes_hex (utf8 req.kind)⟩] : List LeafV1).foldlM
          (fun t l => t.push_leaf (leafPayload l))
          (MerkleTree.new ⟨"sha256", domainMERKLE_LEAF, domainMERKLE_NODE⟩) = .ok tree1 ∧
      tree1.root_hex = .ok root := by
  unfold compile_from_ir at hc
  obtain ⟨u, hv, hc⟩ := exceptBind_ok_inv hc
  cases u
  split at hc
  · exact absurd hc (by simp)
  · split at hc
    · exact absurd hc (by simp)
    · obtain ⟨rd, hrun, hc⟩ := exceptBind_ok_inv hc
      obtain ⟨schema, hout, hc⟩ := exceptBind_ok_inv hc
      obtain ⟨sh, hsh, hc⟩ := exceptBind_ok_inv hc
      obtain ⟨mh, hmh, hc⟩ := exceptBind_ok_inv hc
      obtain ⟨prf, hps, hc⟩ := exceptBind_ok_inv hc
      obtain ⟨edges, hemit, hchar⟩ := emit_schema_ok ir req.kind req.meta hv
      have hmap := compileStages_run ir req _ hv hemit
      rw [hrun] at hmap
      simp only [Except.map] at hmap
      have hout2 := Except.ok.inj hmap
      unfold extractSchema at hout
      rw [hout2] at hout
      simp only [] at hout
      have hs0 := Except.ok.inj hout
      subst hs0
      rw [hb] at hps
      unfold buildProofOpt at hps
      rw [if_pos rfl] at hps
      simp only [] at hps
      rw [sortLeaves_concrete] at hps
      obtain ⟨tree1, hfold, hps⟩ := exceptBind_ok_inv hps
      obtain ⟨root, hroot, hps⟩ := exceptBind_ok_inv hps
      have hprf := (Except.ok.inj hps).symm
      subst hprf
      have hrep := (Except.ok.inj hc).symm
      subst hrep
      exact ⟨edges, sh, mh, tree1, root, hv, hchar, rfl, hsh, rfl, hmh, rfl, hfold, hroot⟩

/-- The four compile leaves in their sorted order are a fixpoint of the
verifier's re-sort. -/
theorem sortLeaves_sorted_concrete (v1 v2 v3 v4 : String) :
    ([⟨"digest:manifestHash", v2⟩, ⟨"digest:schemaHash", v1⟩,
      ⟨"meta:createdAt", v4⟩, ⟨"meta:kind", v3⟩] : List LeafV1).insertionSort leafLe =
    [⟨"digest:manifestHash", v2⟩, ⟨"digest:schemaHash", v1⟩,
     ⟨"meta:createdAt", v4⟩, ⟨"meta:kind", v3⟩] := by
  have h1 : strLtB "meta:kind" "meta:createdAt" = false := by decide
  have h2 : strLtB "meta:createdAt" "digest:schemaHash" = false := by decide
  have h3 : strLtB "digest:schemaHash" "digest:manifestHash" = false := by decide
  simp [List.insertionSort, List.orderedInsert, leafLe, h1, h2, h3]

/-- Projections of `to_manifest_v1` with a schema digest. -/
theorem to_manifest_v1_fields (req : CompileRequest) (h : String) :
    (req.to_manifest_v1 (some h)).version = "v1" ∧
    (req.to_manifest_v1 (some h)).name = "signia-compile" ∧
    (req.to_manifest_v1 (some h)).schemas = [SchemaRefV1.mk req.kind h] := by
  unfold CompileRequest.to_manifest_v1 ManifestV1.new
  simp only []
  split
  · exact ⟨rfl, rfl, rfl⟩
  · exact ⟨rfl, rfl, rfl⟩

/-- The manifest structural checks never produce an `Error`-level finding on
a compiled manifest: its version and name are fixed, and the limit checks
only warn. -/
theorem manifest_no_error_findings (req : CompileRequest) (h : String) :
    ((verify_manifest_structure (req.to_manifest_v1 (some h))).any fun f =>
      f.level = DiagnosticLevel.error) = false := by
  obtain ⟨hv, hn, -⟩ := to_manifest_v1_fields req h
  have hb : isBlank "signia-compile" = false := by decide
  have hw : ∀ (c : Prop) [Decidable c] (code msg : String),
      ((if c then [finding .warning code msg] else []).any fun f =>
        f.level = DiagnosticLevel.error) = false := by
    intro c _ code msg
    split
    · rfl
    · rfl
  unfold verify_manifest_structure
  rw [hv, hn, hb]
  simp [hw]

/-- The verifier's leaf map on the four sorted compile leaves. -/
theorem leafMapGet_four (sh mh a b : String) :
    leafMapGet [⟨"digest:manifestHash", mh⟩, ⟨"digest:schemaHash", sh⟩,
      ⟨"meta:createdAt", a⟩, ⟨"meta:kind", b⟩] "digest:schemaHash" = some sh ∧
    leafMapGet [⟨"digest:manifestHash", mh⟩, ⟨"digest:schemaHash", sh⟩,
      ⟨"meta:createdAt", a⟩, ⟨"meta:kind", b⟩] "digest:manifestHash" = some mh := by
  constructor <;> simp [leafMapGet]

/-- The schema structural checks are empty for a well-formed schema with
clean entity and edge findings. -/
theorem verify_schema_structure_nil (s : SchemaV1)
    (hv : s.version = "v1")
    (hk : isBlank s.kind = false)
    (hmo : s.meta.isObject = true)
    (h1 : s.meta.hasKey "name" = true)
    (h2 : s.meta.hasKey "createdAt" = true)
    (h3 : s.meta.hasKey "source" = true)
    (h4 : s.meta.hasKey "normalization" = true)
    (hent : entityFindings [] s.entities = [])
    (hedg : edgeFindings (s.entities.map fun e => e.id) s.edges = []) :
    verify_schema_structure s = [] := by
  unfold verify_schema_structure
  rw [hv, hent, hedg]
  simp [hk, hmo, h1, h2, h3, h4]

/-- Recomputing the root of a compiled proof reproduces its stored root. -/
theorem recompute_compiled (sh mh a b root : String) (tree1 : MerkleTree)
    (hfold : ([⟨"digest:manifestHash", mh⟩, ⟨"digest:schemaHash", sh⟩,
        ⟨"meta:createdAt", a⟩, ⟨"meta:kind", b⟩] : List LeafV1).foldlM
        (fun t l => t.push_leaf (leafPayload l))
        (MerkleTree.new ⟨"sha256", domainMERKLE_LEAF, domainMERKLE_NODE⟩) = .ok tree1)
    (hroot : tree1.root_hex = .ok root) :
    recompute_proof_root_hex ⟨"v1", "sha256", root,
      [⟨"digest:manifestHash", mh⟩, ⟨"digest:schemaHash", sh⟩,
       ⟨"meta:createdAt", a⟩, ⟨"meta:kind", b⟩], Option.none⟩ = .ok root := by
  unfold recompute_proof_root_hex
  simp only []
  rw [sortLeaves_sorted_concrete]
  rw [exceptBind_ok _ _ _ hfold]
  exact hroot

/-- Assembly: a bundle whose components pass every check verifies with
`ok = true` under the default options. -/
theorem verify_ok_of_parts (s : SchemaV1) (m : ManifestV1) (p : ProofV1) (sh mh : String)
    (hs : hash_schema_v1_hex s = .ok sh)
    (hm : hash_manifest_v1_hex m = .ok mh)
    (hss : verify_schema_structure s = [])
    (hms : ((verify_manifest_structure m).any fun f =>
      f.level = DiagnosticLevel.error) = false)
    (hbind : (m.schemas.any fun r => r.digest = sh) = true)
    (hsl : leafMapGet p.leaves "digest:schemaHash" = some sh)
    (hml : leafMapGet p.leaves "digest:manifestHash" = some mh)
    (hroot : recompute_proof_root_hex p = .ok p.root)
    (hinc : p.inclusions = Option.none) :
    ∃ rep, verify_bundle ⟨s, m, some p⟩ VerifyOptions.default = .ok rep ∧
      rep.ok = true := by
  unfold verify_bundle
  simp only []
  rw [exceptBind_ok _ _ _ hs]
  rw [exceptBind_ok _ _ _ hm]
  simp only [VerifyOptions.default, hss]
  simp only [if_true, hbind, reduceIte, Option.isNone_some, Bool.false_eq_true, and_false,
    if_false]
  rw [if_pos hsl, if_pos hml]
  rw [exceptBind_ok _ _ _ hroot]
  simp only []
  rw [hinc]
  simp only [if_true, bind, Except.bind]
  refine ⟨_, rfl, ?_⟩
  simp [List.any_append, hms, finding]

def c1Meta : Json :=
  .obj [("name", .str "demo"), ("createdAt", .str "1970-01-01T00:00:00Z"),
        ("source", .str "unit"), ("normalization", .str "none")]

def c1Node : IrNode := ⟨"a", "k1", "t", "node-a", [], [], Option.none, []⟩

def c1Ir : IrGraph := ⟨[c1Node], []⟩

def c1Req : CompileRequest :=
  ⟨"repo", c1Meta, "1970-01-01T00:00:00Z", [], [], [], [],
   ⟨1, 1, 8, 8, 1, "deny"⟩, false, true⟩

/-- Flip one byte: hex output never contains two equal adjacent alphabets of
`0`/`1` swaps, so this always changes a hex character. -/
def flipHexChar (c : Char) : Char := if c = '0' then '1' else '0'

/-- Alter the first byte of a string. -/
def flipFirst (s : String) : String :=
  match s.data with
  | [] => s
  | c :: rest => ⟨flipHexChar c :: rest⟩

/-- The tampering of scenario S1/S5: alter one byte of the named proof
leaf's stored value. -/
def tamperLeaf (key : String) (b : VerifyBundle) : VerifyBundle :=
  ⟨b.schema, b.manifest, b.proof.map fun p =>
    { p with leaves := p.leaves.map fun l =>
        if l.key = key then ⟨l.key, flipFirst l.value⟩ else l }⟩

/-- The bundle compiled from the concrete request (the error branch is
unreachable: the compile succeeds). -/
def c1Bundle : VerifyBundle :=
  match compile_from_ir c1Ir c1Req with
  | .ok r => ⟨r.bundle.schema, r.bundle.manifest, r.bundle.proof⟩
  | .error _ => ⟨⟨"", "", Json.null, [], []⟩, ManifestV1.new "" ⟨0, 0, 0, 0, 0, ""⟩,
      Option.none⟩

def c1Tampered : VerifyBundle := tamperLeaf "digest:schemaHash" c1Bundle

/-- Alter one byte of the schema: flip the first byte of its kind string. -/
def c1TamperedSchema : VerifyBundle :=
  ⟨{ c1Bundle.schema with kind := flipFirst c1Bundle.schema.kind },
   c1Bundle.manifest, c1Bundle.proof⟩

/-- Alter one byte of the manifest: flip the first byte of its name. -/
def c1TamperedManifest : VerifyBundle :=
  ⟨c1Bundle.schema,
   { c1Bundle.manifest with name := flipFirst c1Bundle.manifest.name },
   c1Bundle.proof⟩

set_option maxRecDepth 60000 in
set_option maxHeartbeats 4000000 in
/-- C1 (amended).  For every successful `compile_from_ir` with `build_proof`
whose request is hygienic — nonblank kind, meta an object carrying the four
required keys, nonblank IR node types — the produced bundle verifies with
`ok = true` under default options (the counterexample shows the hygiene
conditions are necessary); and for the concrete compiled bundle, altering
one byte of the schema (its kind string), of the manifest (its name), or of
the `digest:schemaHash` proof leaf value each flips verification to
`ok = false` with an `Error`-level finding carrying a deterministic code
(`manifest.binding.missing`, `proof.leaf.manifestHash.mismatch`,
`proof.leaf.schemaHash.mismatch` respectively). -/
theorem c1_verify_inverts_compile :
    (∀ (ir : IrGraph) (req : CompileRequest) (rep : CompileReport),
      compile_from_ir ir req = .ok rep →
      req.build_proof = true →
      isBlank req.kind = false →
      req.meta.isObject = true →
      req.meta.hasKey "name" = true →
      req.meta.hasKey "createdAt" = true →
      req.meta.hasKey "source" = true →
      req.meta.hasKey "normalization" = true →
      (∀ n ∈ ir.nodes, isBlank n.node_type = false) →
      ∃ vrep, verify_bundle ⟨rep.bundle.schema, rep.bundle.manifest, rep.bundle.proof⟩
        VerifyOptions.default = .ok vrep ∧ vrep.ok = true) ∧
    (c1TamperedSchema.schema.kind ≠ c1Bundle.schema.kind ∧
      c1TamperedManifest.manifest.name ≠ c1Bundle.manifest.name ∧
      c1Tampered.proof ≠ c1Bundle.proof ∧
      (∃ vrep, verify_bundle c1Bundle VerifyOptions.default = .ok vrep ∧
        vrep.ok = true) ∧
      (∃ vs, verify_bundle c1TamperedSchema VerifyOptions.default = .ok vs ∧
        vs.ok = false ∧
        (vs.findings.any fun f => f.level = DiagnosticLevel.error ∧
          f.code = "manifest.binding.missing") = true) ∧
      (∃ vm, verify_bundle c1TamperedManifest VerifyOptions.default = .ok vm ∧
        vm.ok = false ∧
        (vm.findings.any fun f => f.level = DiagnosticLevel.error ∧
          f.code = "proof.leaf.manifestHash.mismatch") = true) ∧
      ∃ vrep', verify_bundle c1Tampered VerifyOptions.default = .ok vrep' ∧
        vrep'.ok = false ∧
        (vrep'.findings.any fun f => f.level = DiagnosticLevel.error ∧
          f.code = "proof.leaf.schemaHash.mismatch") = true) := by
  constructor
  · intro ir req rep hc hb hk hmo h1 h2 h3 h4 ht
    obtain ⟨edges, sh, mh, tree1, root, hvb, hchar, hsch, hsh, hman, hmh, hprf, hfold, hroot⟩ :=
      compile_ok_inv ir req rep hc hb
    have hperm := List.perm_insertionSort nodeLe ir.nodes
    have hids : (((ir.nodes.insertionSort nodeLe).enum.map fun p =>
        EntityV1.mk (entityIdFor p.1) p.2.node_type p.2.name).map fun e => e.id) =
        (List.range (ir.nodes.insertionSort nodeLe).length).map entityIdFor := by
      rw [List.map_map, ← List.enum_map_fst (ir.nodes.insertionSort nodeLe), List.map_map]
      rfl
    rw [hsch, hman, hprf]
    rw [hsch] at hsh
    rw [hman] at hmh
    refine verify_ok_of_parts _ _ _ sh mh hsh hmh ?_ (manifest_no_error_findings req sh)
      ?_ (leafMapGet_four sh mh _ _).1 (leafMapGet_four sh mh _ _).2
      (recompute_compiled sh mh _ _ root tree1 hfold hroot) rfl
    · refine verify_schema_structure_nil _ rfl hk hmo h1 h2 h3 h4 ?_ ?_
      · refine entityFindings_nil _ [] ?_ ?_ ?_ ?_
        · intro e he
          obtain ⟨pp, hpp, hpe⟩ := List.mem_map.mp he
          rw [← hpe]
          exact isBlank_entityIdFor pp.1
        · intro e he
          obtain ⟨pp, hpp, hpe⟩ := List.mem_map.mp he
          rw [← hpe]
          exact ht pp.2 (hperm.mem_iff.mp (mem_enum_snd _ pp hpp))
        · rw [hids]
          exact List.Nodup.map (fun a b h => entityIdFor_inj h) (List.nodup_range _)
        · intro e _ h
          exact absurd h (List.not_mem_nil _)
      · refine edgeFindings_nil _ _ ?_
        intro e he
        obtain ⟨i, t, fi, ti, hei, hfi, hti⟩ := hchar e he
        rw [hei, hids]
        refine ⟨isBlank_entityIdFor fi, isBlank_entityIdFor ti, ?_, ?_⟩
        · exact List.mem_map.mpr ⟨fi, List.mem_range.mpr (by rw [hperm.length_eq]; exact hfi),
            rfl⟩
        · exact List.mem_map.mpr ⟨ti, List.mem_range.mpr (by rw [hperm.length_eq]; exact hti),
            rfl⟩
    · rw [(to_manifest_v1_fields req sh).2.2]
      simp
  · exact ⟨by decide, by decide, by decide, ⟨_, rfl, rfl⟩, ⟨_, rfl, rfl, by decide⟩,
      ⟨_, rfl, rfl, by decide⟩, ⟨_, rfl, rfl, by decide⟩⟩

set_option maxRecDepth 60000 in
set_option maxHeartbeats 2000000 in
/-- C1 witness: the concrete hygienic request compiles and its bundle
verifies with `ok = true`. -/
theorem c1_verify_inverts_compile_witness :
    ∃ rep, compile_from_ir c1Ir c1Req = .ok rep ∧
      ∃ vrep, verify_bundle ⟨rep.bundle.schema, rep.bundle.manifest, rep.bundle.proof⟩
        VerifyOptions.default = .ok vrep ∧ vrep.ok = true := by
  obtain ⟨rep, hrep⟩ : ∃ rep, compile_from_ir c1Ir c1Req = Except.ok rep := ⟨_, rfl⟩
  exact ⟨rep, hrep, c1_verify_inverts_compile.1 c1Ir c1Req rep hrep rfl rfl rfl rfl rfl rfl
    rfl (by intro n hn; rw [show n = c1Node by simpa [c1Ir] using hn]; rfl)⟩

def c1BadReq : CompileRequest :=
  ⟨"", .obj [], "1970-01-01T00:00:00Z", [], [], [], [],
   ⟨1, 1, 8, 8, 1, "deny"⟩, false, true⟩

set_option maxRecDepth 60000 in
set_option maxHeartbeats 2000000 in
/-- C1 counterexample: the claim asserts `ok = true` for *every* successful
compile, but a request with a blank kind (and meta without the required
keys) compiles successfully while its own bundle fails verification with
the `schema.kind` error finding. -/
theorem c1_counterexample_blank_kind :
    ∃ rep, compile_from_ir c1Ir c1BadReq = .ok rep ∧
      (verify_bundle ⟨rep.bundle.schema, rep.bundle.manifest, rep.bundle.proof⟩
        VerifyOptions.default).map VerifyReport.ok = .ok false ∧
      (verify_bundle ⟨rep.bundle.schema, rep.bundle.manifest, rep.bundle.proof⟩
        VerifyOptions.default).map (fun r => r.findings.any fun f =>
          f.level = DiagnosticLevel.error ∧ f.code = "schema.kind") = .ok true :=
  ⟨_, rfl, rfl, by decide⟩

end Signia
